import Mathlib

/-!
A shallow embedding of `realm::sync::SyncReplication`
(src/realm/sync/instruction_replication.cpp): the change-capture layer that
translates storage mutation callbacks into sync-protocol instructions.

Machine integers are modelled as `Int`/`Nat` (no arithmetic overflow is
relevant to the translated functions).  `UnsupportedInstruction` (a thrown
`TransformError`) and fatal `REALM_ASSERT` failures are modelled as two
distinct error outcomes of each operation.
-/

namespace RealmSync

/-- `DataType` enumeration of the storage engine (realm/data_type.hpp). -/
inductive DataType where
  | type_Int
  | type_Bool
  | type_String
  | type_Binary
  | type_Timestamp
  | type_Float
  | type_Double
  | type_Decimal
  | type_Link
  | type_LinkList
  | type_TypedLink
  | type_ObjectId
  | type_Mixed
  | type_OldTable
  | type_OldDateTime
deriving DecidableEq, Repr

/-- Object key of a row.  `unresolved` models the tombstone bit that
`ObjKey::is_unresolved()` tests. -/
structure ObjKey where
  val : Nat
  unresolved : Bool
deriving DecidableEq, Repr

/-- An engine-native `Mixed` value.  Float/double/decimal/objectId/timestamp
payloads are carried as opaque numeric tags: no claim depends on their
arithmetic, only on which variant is present. -/
inductive Mixed where
  | null
  | int (v : Int)
  | bool (b : Bool)
  | float (bits : Nat)
  | double (bits : Nat)
  | str (s : String)
  | binary (s : String)
  | timestamp (t : Int)
  | decimal (d : Nat)
  | objectId (o : Nat)
  | link (k : ObjKey)
  | typedLink (tk : Nat) (k : ObjKey)
deriving DecidableEq, Repr

def Mixed.is_null : Mixed → Bool
  | .null => true
  | _ => false

/-- `Mixed::get_type()`.  The source never calls it on null (it asserts
there, cf. the FIXME in `as_payload`); callers of this model that can reach
the null case map it to the fatal-assertion outcome explicitly. -/
def Mixed.get_type : Mixed → DataType
  | .null => .type_Int
  | .int _ => .type_Int
  | .bool _ => .type_Bool
  | .float _ => .type_Float
  | .double _ => .type_Double
  | .str _ => .type_String
  | .binary _ => .type_Binary
  | .timestamp _ => .type_Timestamp
  | .decimal _ => .type_Decimal
  | .objectId _ => .type_ObjectId
  | .link _ => .type_Link
  | .typedLink _ _ => .type_TypedLink

/-- One column of a table: key, name, declared type, attributes, and the
link target table (key) for link-typed columns. -/
structure Column where
  key : Nat
  name : String
  dtype : DataType
  nullable : Bool
  isList : Bool
  isDict : Bool
  dictValueType : DataType := .type_Int
  target : Option Nat := none
deriving DecidableEq, Repr

/-- Link from an embedded row up to its owner: the owner's table key, the
owner's object key, the column of the owner holding this row, and the index
within that column when it is a list. -/
structure ParentLink where
  table : Nat
  obj : ObjKey
  field : Nat
  index : Nat
deriving DecidableEq, Repr

/-- One row: its key, its field values (used to read the primary-key
column), its engine-assigned stable `GlobalKey`, and its owner when the row
is embedded. -/
structure ObjRec where
  key : ObjKey
  fields : List (Nat × Mixed)
  globalKey : Nat
  parent : Option ParentLink := none
deriving DecidableEq, Repr

def ObjRec.getField (o : ObjRec) (c : Nat) : Mixed :=
  match o.fields.lookup c with
  | some v => v
  | none => .null

/-- A table: key, raw storage name (replicated tables are named
`class_...`), embedded flag, columns, declared primary-key column, rows. -/
structure Table where
  key : Nat
  name : String
  embedded : Bool
  columns : List Column
  pkCol : Option Nat
  objs : List ObjRec
deriving DecidableEq, Repr

def Table.getColumn (t : Table) (c : Nat) : Option Column :=
  t.columns.find? (fun col => col.key == c)

def Table.get_object (t : Table) (k : ObjKey) : Option ObjRec :=
  t.objs.find? (fun o => o.key == k)

/-- The group of tables visible through the transaction. -/
structure Database where
  tables : List Table
deriving DecidableEq, Repr

def Database.getTable (db : Database) (k : Nat) : Option Table :=
  db.tables.find? (fun t => t.key == k)

/-- The collection handle a list/dictionary mutation callback receives
(`CollectionBase`): its table, owning row, column, and the element count
observed at the time the callback is invoked.

Modelled from the spec: the storage engine invokes the Emitter callbacks
synchronously around each mutation; `size` is `CollectionBase::size()` as
seen inside the callback, i.e. the collection's element count before the
mutation being reported has taken effect (the spec guarantees emitted
insert/erase instructions carry the collection's *prior* size). -/
structure Collection where
  table : Table
  objKey : ObjKey
  colKey : Nat
  size : Nat
deriving DecidableEq, Repr

/-! ### The changeset encoder: interning table and byte-range buffer -/

/-- `ChangesetEncoder` state: the intern table (`intern_string`) and the
string/binary range buffer (`add_string_range`).  Handles are indices. -/
structure Encoder where
  strings : List String
  buffer : List String
deriving DecidableEq, Repr

/-- `intern_string`: return the existing handle for known text, otherwise
append and return the fresh handle. -/
def Encoder.intern (e : Encoder) (s : String) : Encoder × Nat :=
  match e.strings.findIdx? (fun t => t == s) with
  | some i => (e, i)
  | none => ({ e with strings := e.strings ++ [s] }, e.strings.length)

/-- `add_string_range`: append the bytes, return the range (index). -/
def Encoder.addRange (e : Encoder) (s : String) : Encoder × Nat :=
  ({ e with buffer := e.buffer ++ [s] }, e.buffer.length)

/-- Decode an intern handle back to its text. -/
def Encoder.decode (e : Encoder) (h : Nat) : Option String :=
  e.strings.get? h

/-! ### Instructions -/

/-- `Instruction::PrimaryKey`: variant over null / Int64 / interned string /
ObjectId / GlobalKey. -/
inductive PrimaryKey where
  | null
  | int (v : Int)
  | interned (h : Nat)
  | objectId (o : Nat)
  | globalKey (g : Nat)
deriving DecidableEq, Repr

/-- `Instruction::Payload::Type`. -/
inductive PayloadType where
  | Null
  | Int
  | Bool
  | String
  | Binary
  | Timestamp
  | Float
  | Double
  | Decimal
  | Link
  | ObjectId
  | GlobalKey
deriving DecidableEq, Repr

/-- `Instruction::Payload`. String/Binary carry a range handle into the
encoder's buffer. -/
inductive Payload where
  | null
  | int (v : Int)
  | bool (b : Bool)
  | float (bits : Nat)
  | double (bits : Nat)
  | strRange (r : Nat)
  | binRange (r : Nat)
  | timestamp (t : Int)
  | decimal (d : Nat)
  | objectId (o : Nat)
  | link (targetTable : Nat) (target : PrimaryKey)
  | objectValue
deriving DecidableEq, Repr

/-- A component of `Instruction::Path`: an interned field name or an array
index. -/
inductive PathComponent where
  | field (h : Nat)
  | index (n : Nat)
deriving DecidableEq, Repr

/-- `Instruction::PathInstruction` header: interned table name, object
identity, interned first field name, and the remaining path components. -/
structure PathInstr where
  table : Nat := 0
  object : PrimaryKey := .null
  field : Nat := 0
  path : List PathComponent := []
deriving DecidableEq, Repr

/-- `AddTable` type spec. -/
inductive AddTableType where
  | primaryKeySpec (field : Nat) (ptype : PayloadType) (nullable : Bool)
  | embeddedTable
deriving DecidableEq, Repr

/-- `AddColumn::CollectionType`. -/
inductive CollectionType where
  | single
  | list
  | dictionary
deriving DecidableEq, Repr

/-- The sync-protocol instruction set, as assembled by this file's emitter
functions. -/
inductive Instruction where
  | addTable (table : Nat) (ty : AddTableType)
  | eraseTable (table : Nat)
  | addColumn (table : Nat) (field : Nat) (nullable : Bool) (ptype : PayloadType)
      (collectionType : CollectionType) (valueType : PayloadType) (linkTargetTable : Nat)
  | eraseColumn (table : Nat) (field : Nat)
  | createObject (table : Nat) (object : PrimaryKey)
  | eraseObject (table : Nat) (object : PrimaryKey)
  | update (p : PathInstr) (value : Payload) (isDefault : Bool) (priorSize : Nat)
  | arrayInsert (p : PathInstr) (value : Payload) (priorSize : Nat)
  | arrayErase (p : PathInstr) (priorSize : Nat)
  | arrayMove (p : PathInstr) (ndx2 : Nat)
  | arrayClear (p : PathInstr) (priorSize : Nat)
  | addInteger (p : PathInstr) (value : Int)
  | dictionaryInsert (p : PathInstr) (value : Payload)
  | dictionaryErase (p : PathInstr)
deriving DecidableEq, Repr

/-! ### Emitter state -/

/-- The mutable state of `SyncReplication`: the changeset encoder with the
emitted instruction list, the selection-cache fields, the table-erase
bracket, and the short-circuit flag.  `resolves` is a ghost instrumentation
counter incremented on every `primary_key_for_object` call (the spec asks
for identity resolution to be countable); it influences nothing. -/
structure SyncState where
  encoder : Encoder
  instrs : List Instruction
  m_last_table : Option Nat
  m_last_object : Option ObjKey
  m_last_field : Option Nat
  m_last_class_name : Option Nat
  m_last_primary_key : Option PrimaryKey
  m_last_field_name : Option Nat
  m_table_being_erased : String
  m_short_circuit : Bool
  resolves : Nat := 0
deriving DecidableEq, Repr

/-- Outcome of an emitter operation: normal return, a thrown
`UnsupportedInstruction` (`TransformError`, carrying the state at the throw
point so that "no instruction was emitted" is expressible), or a fatal
`REALM_ASSERT` / `REALM_TERMINATE`. -/
inductive ROut (α : Type) where
  | ok (s : SyncState) (a : α)
  | unsupported (s : SyncState)
  | invariant
deriving Repr, DecidableEq

def ROut.bindR {α β : Type} : ROut α → (SyncState → α → ROut β) → ROut β
  | .ok s a, f => f s a
  | .unsupported s, _ => .unsupported s
  | .invariant, _ => .invariant

/-- The state of a normally returning operation. -/
def ROut.outState {α : Type} : ROut α → Option SyncState
  | .ok s _ => some s
  | _ => none

/-- The state carried by a thrown `UnsupportedInstruction`. -/
def ROut.errState {α : Type} : ROut α → Option SyncState
  | .unsupported s => some s
  | _ => none

/-- The emitted instruction list of a normally returning operation. -/
def ROut.outInstrs {α : Type} : ROut α → Option (List Instruction)
  | .ok s _ => some s.instrs
  | _ => none

/-- Append one instruction to the changeset (`emit`). -/
def SyncState.emit (s : SyncState) (i : Instruction) : SyncState :=
  { s with instrs := s.instrs ++ [i] }

/-- `SyncReplication::reset()`: clear the encoder (interning table, buffer
and emitted instructions) and the whole selection cache.
(`m_last_primary_key` is assigned an engaged null `PrimaryKey()`.) -/
def SyncState.reset (s : SyncState) : SyncState :=
  { s with
    encoder := ⟨[], []⟩
    instrs := []
    m_last_table := none
    m_last_object := none
    m_last_field := none
    m_last_class_name := none
    m_last_primary_key := some .null
    m_last_field_name := none }

/-- `do_initiate_transact`: transaction start resets the encoder and the
selection cache. -/
def do_initiate_transact (s : SyncState) : SyncState :=
  s.reset

/-! ### Name handling and table selection -/

/-- Modelled from the spec: class tables are the tables whose storage name
begins with `class_`; `table_name_to_class_name` strips that prefix
(`sync/object.hpp`, not part of this translation unit). -/
def table_name_to_class_name (n : String) : String :=
  ⟨n.data.drop 6⟩

def beginsWithClass (n : String) : Bool :=
  n.data.take 6 == "class_".data

/-- `emit_class_name`: intern the class name derived from a storage table
name. -/
def emit_class_name (s : SyncState) (tableName : String) : SyncState × Nat :=
  let (e, h) := s.encoder.intern (table_name_to_class_name tableName)
  ({ s with encoder := e }, h)

/-- `select_table`: never selects when short-circuited; a pointer-match with
the cached table (modelled by table key) is an immediate hit; otherwise only
`class_`-named tables are selectable, and selecting a new table interns its
class name and clears the cached field, object and primary key. -/
def select_table (s : SyncState) (t : Table) : SyncState × Bool :=
  if s.m_short_circuit then
    (s, false)
  else if s.m_last_table = some t.key then
    (s, true)
  else if beginsWithClass t.name then
    let (s, h) := emit_class_name s t.name
    ({ s with
        m_last_class_name := some h
        m_last_table := some t.key
        m_last_field := none
        m_last_object := none
        m_last_primary_key := none }, true)
  else
    (s, false)

/-- `select_collection`: select the collection's table. -/
def select_collection (s : SyncState) (view : Collection) : SyncState × Bool :=
  select_table s view.table

/-! ### Value translation -/

/-- `get_payload_type`: legacy types have no representation (the source
raises `UnsupportedInstruction` there; callers map `none` to that). -/
def get_payload_type : DataType → Option PayloadType
  | .type_Int => some .Int
  | .type_Bool => some .Bool
  | .type_String => some .String
  | .type_Binary => some .Binary
  | .type_Timestamp => some .Timestamp
  | .type_Float => some .Float
  | .type_Double => some .Double
  | .type_Decimal => some .Decimal
  | .type_Link => some .Link
  | .type_LinkList => some .Link
  | .type_TypedLink => some .Link
  | .type_ObjectId => some .ObjectId
  | .type_Mixed => some .Null
  | .type_OldTable => none
  | .type_OldDateTime => none

/-- `as_primary_key`: null, Int64, String (interned) and ObjectId are the
supported primary-key value kinds; anything else is
`UnsupportedInstruction`. -/
def as_primary_key (s : SyncState) (value : Mixed) : ROut PrimaryKey :=
  match value with
  | .null => .ok s .null
  | .int v => .ok s (.int v)
  | .str t =>
      let (e, h) := s.encoder.intern t
      .ok { s with encoder := e } (.interned h)
  | .objectId o => .ok s (.objectId o)
  | _ => .unsupported s

/-- `primary_key_for_object`: re-select the table (asserting it is
selectable), then read the row's declared primary key — null maps to the
null identity, Int64/String/ObjectId translate directly (strings are
interned), other declared types are `UnsupportedInstruction` — or fall back
to the row's GlobalKey when the table declares no primary key.  Increments
the ghost `resolves` counter. -/
def primary_key_for_object (s : SyncState) (t : Table) (key : ObjKey) : ROut PrimaryKey :=
  let s := { s with resolves := s.resolves + 1 }
  let (s, should_emit) := select_table s t
  if !should_emit then .invariant
  else
    match t.pkCol with
    | some pk_col =>
        match t.getColumn pk_col, t.get_object key with
        | some col, some obj =>
            if (obj.getField pk_col).is_null then .ok s .null
            else if col.dtype = .type_Int then
              match obj.getField pk_col with
              | .int v => .ok s (.int v)
              | _ => .invariant
            else if col.dtype = .type_String then
              match obj.getField pk_col with
              | .str t =>
                  let (e, h) := s.encoder.intern t
                  .ok { s with encoder := e } (.interned h)
              | _ => .invariant
            else if col.dtype = .type_ObjectId then
              match obj.getField pk_col with
              | .objectId o => .ok s (.objectId o)
              | _ => .invariant
            else .unsupported s
        | _, _ => .invariant
    | none =>
        match t.get_object key with
        | some obj => .ok s (.globalKey obj.globalKey)
        | none => .invariant

/-- `as_payload(Mixed)`: translation of non-link scalars; links require
table context (`REALM_TERMINATE` here) and Mixed/legacy kinds are invalid
payload types (`REALM_TERMINATE`). -/
def as_payload_scalar (s : SyncState) (value : Mixed) : ROut Payload :=
  match value with
  | .null => .ok s .null
  | .int v => .ok s (.int v)
  | .bool b => .ok s (.bool b)
  | .float f => .ok s (.float f)
  | .double d => .ok s (.double d)
  | .str t =>
      let (e, r) := s.encoder.addRange t
      .ok { s with encoder := e } (.strRange r)
  | .binary b =>
      let (e, r) := s.encoder.addRange b
      .ok { s with encoder := e } (.binRange r)
  | .timestamp t => .ok s (.timestamp t)
  | .decimal d => .ok s (.decimal d)
  | .objectId o => .ok s (.objectId o)
  | .link _ => .invariant
  | .typedLink _ _ => .invariant

/-- `as_payload(Table, ColKey, Mixed)`: link values resolve their target
table — an embedded target becomes `ObjectValue`, otherwise a `Link` payload
with the target's class name and identity; typed links to embedded targets
terminate; everything else goes through the scalar translation. -/
def as_payload (db : Database) (s : SyncState) (t : Table) (colKey : Nat)
    (value : Mixed) : ROut Payload :=
  match value with
  | .null => .ok s .null
  | .link k =>
      match t.getColumn colKey with
      | none => .invariant
      | some col =>
          match col.target with
          | none => .invariant
          | some targetKey =>
              match db.getTable targetKey with
              | none => .invariant
              | some target_table =>
                  if target_table.embedded then .ok s .objectValue
                  else
                    let (s, h) := emit_class_name s target_table.name
                    (primary_key_for_object s target_table k).bindR fun s pk =>
                      .ok s (.link h pk)
  | .typedLink tk k =>
      match db.getTable tk with
      | none => .invariant
      | some target_table =>
          if target_table.embedded then .invariant
          else
            let (s, h) := emit_class_name s target_table.name
            (primary_key_for_object s target_table k).bindR fun s pk =>
              .ok s (.link h pk)
  | v => as_payload_scalar s v

/-- `as_payload(CollectionBase, Mixed)`: delegate with the collection's
table and column. -/
def as_payload_col (db : Database) (s : SyncState) (view : Collection)
    (value : Mixed) : ROut Payload :=
  as_payload db s view.table view.colKey value

/-! ### Path building -/

/-- Modelled from the spec: `Obj::traverse_path` (engine code outside this
translation unit) yields, for an embedded row, the top (non-embedded)
ancestor first and then each owner along the ownership chain in
ancestor-to-descendant order; each visit supplies the visited object, the
column leading towards the mutated row, and the index within that column
when it is a list.  Here each visit is the `ParentLink` of the next row
down; `fuel` bounds the chain walk (`none` = no non-embedded ancestor, an
engine invariant violation). -/
def traverse_entries (db : Database) (t : Table) (key : ObjKey) :
    Nat → Option (List ParentLink)
  | 0 => none
  | fuel + 1 =>
      if t.embedded then
        match t.get_object key with
        | none => none
        | some o =>
            match o.parent with
            | none => none
            | some p =>
                match db.getTable p.table with
                | none => none
                | some pt =>
                    match traverse_entries db pt p.obj fuel with
                    | none => none
                    | some es => some (es ++ [p])
      else some []

/-- The non-embedded branch of `populate_path_instr(instr, table, key,
field)`: select the table (asserting selectability), set the instruction's
table header from the cached class name, resolve or reuse the cached object
identity, and intern or reuse the cached leaf field name. -/
def populate_top (s : SyncState) (t : Table) (key : ObjKey) (field : Nat)
    (instr : PathInstr) : ROut PathInstr :=
  let (s, should_emit) := select_table s t
  if !should_emit then .invariant
  else
    let instr := { instr with table := s.m_last_class_name.getD 0 }
    let step2 : ROut PathInstr :=
      if s.m_last_object = some key then
        .ok s { instr with object := s.m_last_primary_key.getD .null }
      else
        (primary_key_for_object s t key).bindR fun s pk =>
          .ok { s with m_last_object := some key, m_last_primary_key := some pk }
            { instr with object := pk }
    step2.bindR fun s instr =>
      if s.m_last_field = some field then
        .ok s { instr with field := s.m_last_field_name.getD 0 }
      else
        match t.getColumn field with
        | none => .invariant
        | some col =>
            let (e, h) := s.encoder.intern col.name
            .ok { s with
                    encoder := e
                    m_last_field := some field
                    m_last_field_name := some h }
              { instr with field := h }

/-- One step of the `traverse_path` visitor: an embedded level pushes its
interned field-name component; the (non-embedded) top level populates the
instruction headers the normal way; a level inside a list additionally
pushes the index component. -/
def path_visit_step (db : Database) (s : SyncState) (instr : PathInstr)
    (p : ParentLink) : ROut PathInstr :=
  match db.getTable p.table with
  | none => .invariant
  | some element_table =>
      match element_table.getColumn p.field with
      | none => .invariant
      | some col =>
          let step1 : ROut PathInstr :=
            if element_table.embedded then
              let (e, h) := s.encoder.intern col.name
              .ok { s with encoder := e }
                { instr with path := instr.path ++ [.field h] }
            else
              populate_top s element_table p.obj p.field instr
          step1.bindR fun s instr =>
            if col.isList then
              .ok s { instr with path := instr.path ++ [.index p.index] }
            else
              .ok s instr

/-- Fold the visitor over the traversal entries. -/
def path_visit (db : Database) : SyncState → PathInstr → List ParentLink →
    ROut PathInstr
  | s, instr, [] => .ok s instr
  | s, instr, p :: rest =>
      (path_visit_step db s instr p).bindR fun s instr =>
        path_visit db s instr rest

/-- `populate_path_instr(instr, table, key, field)`: for an embedded table,
run the ownership-chain traversal and append the interned leaf field name as
the last path component; for a non-embedded table, fill the headers via the
selection cache. -/
def populate_path_instr (db : Database) (s : SyncState) (t : Table)
    (key : ObjKey) (field : Nat) (fuel : Nat) : ROut PathInstr :=
  if t.embedded then
    match traverse_entries db t key fuel with
    | none => .invariant
    | some [] => .invariant
    | some entries =>
        (path_visit db s {} entries).bindR fun s instr =>
          match t.getColumn field with
          | none => .invariant
          | some col =>
              let (e, h) := s.encoder.intern col.name
              .ok { s with encoder := e }
                { instr with path := instr.path ++ [.field h] }
  else
    populate_top s t key field {}

/-- `populate_path_instr(instr, list)`: the collection's table, row and
column. -/
def populate_path_instr_col (db : Database) (s : SyncState)
    (view : Collection) (fuel : Nat) : ROut PathInstr :=
  populate_path_instr db s view.table view.objKey view.colKey fuel

/-- `populate_path_instr(instr, list, ndx)`: additionally push the element
index. -/
def populate_path_instr_ndx (db : Database) (s : SyncState)
    (view : Collection) (ndx : Nat) (fuel : Nat) : ROut PathInstr :=
  (populate_path_instr_col db s view fuel).bindR fun s instr =>
    .ok s { instr with path := instr.path ++ [.index ndx] }

/-! ### Mutation callbacks (the Instruction Emitter entry points) -/

/-- A link value whose target key is unresolved (tombstoned):
`value.get_type() == type_Link && value.get<ObjKey>().is_unresolved()`. -/
def isUnresolvedLink : Mixed → Bool
  | .link k => k.unresolved
  | _ => false

/-- Modelled from the spec: `Instruction::Update::is_array_update()`
(instruction.hpp, outside this translation unit) — an update addresses an
array element exactly when its last path component is an index. -/
def PathInstr.isArrayUpdate (p : PathInstr) : Bool :=
  match p.path.getLast? with
  | some (.index _) => true
  | _ => false

/-- Modelled from the spec: `is_valid_key_type` (instruction.hpp) — the
identity variants the protocol supports: Int64, String, ObjectId, and the
GlobalKey surrogate for tables without a declared primary key. -/
def is_valid_key_type : PayloadType → Bool
  | .Int => true
  | .String => true
  | .ObjectId => true
  | .GlobalKey => true
  | _ => false

/-- `add_class`: emit `AddTable` for class tables (embedded spec, or a
GlobalKey primary-key spec with an empty interned field name). -/
def add_class (s : SyncState) (name : String) (is_embedded : Bool) : ROut Unit :=
  if beginsWithClass name && !s.m_short_circuit then
    let (s, h) := emit_class_name s name
    if is_embedded then
      .ok (s.emit (.addTable h .embeddedTable)) ()
    else
      let (e, field) := s.encoder.intern ""
      let s := { s with encoder := e }
      .ok (s.emit (.addTable h (.primaryKeySpec field .GlobalKey false))) ()
  else .ok s ()

/-- `add_class_with_primary_key`: emit `AddTable` with the declared
primary-key spec; invalid key types are `UnsupportedInstruction`. -/
def add_class_with_primary_key (s : SyncState) (name : String)
    (pk_type : DataType) (pk_field : String) (nullable : Bool) : ROut Unit :=
  if beginsWithClass name && !s.m_short_circuit then
    let (s, h) := emit_class_name s name
    let (e, field) := s.encoder.intern pk_field
    let s := { s with encoder := e }
    match get_payload_type pk_type with
    | none => .unsupported s
    | some pt =>
        if is_valid_key_type pt then
          .ok (s.emit (.addTable h (.primaryKeySpec field pt nullable))) ()
        else .unsupported s
  else .ok s ()

/-- `create_object`: embedded tables are `UnsupportedInstruction`; on a
selectable table a declared primary-key column makes keyless creation
`UnsupportedInstruction`, otherwise one `CreateObject` with the GlobalKey
identity is emitted. -/
def create_object (s : SyncState) (t : Table) (oid : Nat) : ROut Unit :=
  if t.embedded then .unsupported s
  else
    let (s, sel) := select_table s t
    if sel then
      if t.pkCol.isSome then .unsupported s
      else
        .ok (s.emit (.createObject (s.m_last_class_name.getD 0) (.globalKey oid))) ()
    else .ok s ()

/-- `create_object_with_primary_key`: embedded tables are
`UnsupportedInstruction`; on a selectable table the value must be null on a
nullable declared primary-key column or match its declared type exactly — a
null value on a non-nullable column reaches `Mixed::get_type()` which
asserts on null (fatal), a missing primary-key column or a non-null value of
the wrong type is `UnsupportedInstruction`. -/
def create_object_with_primary_key (s : SyncState) (t : Table)
    (value : Mixed) : ROut Unit :=
  if t.embedded then .unsupported s
  else
    let (s, sel) := select_table s t
    if sel then
      match t.pkCol with
      | none => .unsupported s
      | some pkc =>
          match t.getColumn pkc with
          | none => .invariant
          | some col =>
              if value.is_null then
                if col.nullable then
                  (as_primary_key s value).bindR fun s pk =>
                    .ok (s.emit (.createObject (s.m_last_class_name.getD 0) pk)) ()
                else .invariant
              else if col.dtype = value.get_type then
                (as_primary_key s value).bindR fun s pk =>
                  .ok (s.emit (.createObject (s.m_last_class_name.getD 0) pk)) ()
              else .unsupported s
    else .ok s ()

/-- `prepare_erase_table`: record the class table about to be erased
(asserting none is pending). -/
def prepare_erase_table (s : SyncState) (table_name : String) : ROut Unit :=
  if beginsWithClass table_name && s.m_table_being_erased == "" then
    .ok { s with m_table_being_erased := table_name } ()
  else .invariant

/-- `erase_group_level_table`: for class tables, assert the erase was
prepared, clear the bracket, and (unless short-circuited) emit one
`EraseTable`; always drop the cached table pointer. -/
def erase_group_level_table (db : Database) (s : SyncState) (tk : Nat) : ROut Unit :=
  match db.getTable tk with
  | none => .invariant
  | some t =>
      if beginsWithClass t.name then
        if t.name = s.m_table_being_erased then
          let s := { s with m_table_being_erased := "" }
          let s :=
            if !s.m_short_circuit then
              let (s, h) := emit_class_name s t.name
              s.emit (.eraseTable h)
            else s
          .ok { s with m_last_table := none } ()
        else .invariant
      else .ok { s with m_last_table := none } ()

/-- `rename_group_level_table`: always `UnsupportedInstruction`. -/
def rename_group_level_table (s : SyncState) (_tk : Nat) (_new_name : String) : ROut Unit :=
  .unsupported s

/-- `rename_column`: always `UnsupportedInstruction`. -/
def rename_column (s : SyncState) (_t : Table) (_col : Nat) (_new_name : String) : ROut Unit :=
  .unsupported s

/-- `insert_column`: on a selectable table emit `AddColumn` with the interned
field name, nullability, payload type, collection type (list/dictionary
attributes of the column key), dictionary value type, and the link target's
class name (or an interned empty string). -/
def insert_column (s : SyncState) (t : Table) (col : Column)
    (target_table : Option Table) : ROut Unit :=
  let (s, sel) := select_table s t
  if sel then
    let (e, field) := s.encoder.intern col.name
    let s := { s with encoder := e }
    match get_payload_type col.dtype with
    | none => .unsupported s
    | some pt =>
        let ctype : CollectionType :=
          if col.isDict then .dictionary
          else if col.isList then .list
          else .single
        let vt : Option PayloadType :=
          if col.isDict then get_payload_type col.dictValueType
          else some .Null
        match vt with
        | none => .unsupported s
        | some vt =>
            if pt = .Null && !col.nullable then .invariant
            else
              let (s, link_target) :=
                match target_table with
                | some tt => if pt = PayloadType.Link then emit_class_name s tt.name
                             else let (e, h) := s.encoder.intern ""
                                  ({ s with encoder := e }, h)
                | none => let (e, h) := s.encoder.intern ""
                          ({ s with encoder := e }, h)
              .ok (s.emit (.addColumn (s.m_last_class_name.getD 0) field
                    col.nullable pt ctype vt link_target)) ()
  else .ok s ()

/-- `erase_column`: on a selectable table, suppress the instruction while
the table itself is being erased; otherwise assert the column is not the
primary-key column and emit `EraseColumn`. -/
def erase_column (s : SyncState) (t : Table) (col_ndx : Nat) : ROut Unit :=
  let (s, sel) := select_table s t
  if sel then
    if t.name = s.m_table_being_erased then .ok s ()
    else if t.pkCol = some col_ndx then .invariant
    else
      match t.getColumn col_ndx with
      | none => .invariant
      | some col =>
          let (e, field) := s.encoder.intern col.name
          .ok (SyncState.emit { s with encoder := e }
                (.eraseColumn (s.m_last_class_name.getD 0) field)) ()
  else .ok s ()

/-- `list_set`: unresolved link values are suppressed; otherwise emit an
array `Update` carrying the element path, the payload and the collection's
size. -/
def list_set (db : Database) (s : SyncState) (view : Collection) (ndx : Nat)
    (value : Mixed) (fuel : Nat) : ROut Unit :=
  if isUnresolvedLink value then .ok s ()
  else
    let (s, sel) := select_collection s view
    if sel then
      (populate_path_instr_ndx db s view ndx fuel).bindR fun s instr =>
        if !instr.isArrayUpdate then .invariant
        else
          (as_payload_col db s view value).bindR fun s pay =>
            .ok (s.emit (.update instr pay false view.size)) ()
    else .ok s ()

/-- `list_insert`: emit `ArrayInsert` carrying the collection's size as
`prior_size`. -/
def list_insert (db : Database) (s : SyncState) (view : Collection)
    (ndx : Nat) (value : Mixed) (fuel : Nat) : ROut Unit :=
  let (s, sel) := select_collection s view
  if sel then
    let sz := view.size
    (populate_path_instr_ndx db s view ndx fuel).bindR fun s instr =>
      (as_payload_col db s view value).bindR fun s pay =>
        .ok (s.emit (.arrayInsert instr pay sz)) ()
  else .ok s ()

/-- `add_int`: assert the column is not the primary-key column and emit
`AddInteger`. -/
def add_int (db : Database) (s : SyncState) (t : Table) (col : Nat)
    (key : ObjKey) (value : Int) (fuel : Nat) : ROut Unit :=
  let (s, sel) := select_table s t
  if sel then
    if t.pkCol = some col then .invariant
    else
      (populate_path_instr db s t key col fuel).bindR fun s instr =>
        .ok (s.emit (.addInteger instr value)) ()
  else .ok s ()

/-- The `_impl::Instruction` variant of a `set` call. -/
inductive SetVariant where
  | instr_Set
  | instr_SetDefault
deriving DecidableEq, Repr

/-- `set`: unresolved link values are suppressed; otherwise emit an `Update`
with the field path, the translated payload, and the default-variant
flag. -/
def set (db : Database) (s : SyncState) (t : Table) (col : Nat) (key : ObjKey)
    (value : Mixed) (variant : SetVariant) (fuel : Nat) : ROut Unit :=
  if isUnresolvedLink value then .ok s ()
  else
    let (s, sel) := select_table s t
    if sel then
      (populate_path_instr db s t key col fuel).bindR fun s instr =>
        (as_payload db s t col value).bindR fun s pay =>
          .ok (s.emit (.update instr pay (variant = .instr_SetDefault) 0)) ()
    else .ok s ()

/-- `remove_object`: embedded rows are not separately emitted; otherwise
assert the key is resolved and emit `EraseObject` with the resolved
identity. -/
def remove_object (s : SyncState) (t : Table) (key : ObjKey) : ROut Unit :=
  if t.embedded then .ok s ()
  else if key.unresolved then .invariant
  else
    let (s, sel) := select_table s t
    if sel then
      (primary_key_for_object s t key).bindR fun s pk =>
        .ok (s.emit (.eraseObject (s.m_last_class_name.getD 0) pk)) ()
    else .ok s ()

/-- `list_move`: emit `ArrayMove`. -/
def list_move (db : Database) (s : SyncState) (view : Collection)
    (from_ndx to_ndx : Nat) (fuel : Nat) : ROut Unit :=
  let (s, sel) := select_collection s view
  if sel then
    (populate_path_instr_ndx db s view from_ndx fuel).bindR fun s instr =>
      .ok (s.emit (.arrayMove instr to_ndx)) ()
  else .ok s ()

/-- `list_erase`: capture the collection's size as the prior size and emit
`ArrayErase`. -/
def list_erase (db : Database) (s : SyncState) (view : Collection)
    (ndx : Nat) (fuel : Nat) : ROut Unit :=
  let prior_size := view.size
  let (s, sel) := select_collection s view
  if sel then
    (populate_path_instr_ndx db s view ndx fuel).bindR fun s instr =>
      .ok (s.emit (.arrayErase instr prior_size)) ()
  else .ok s ()

/-- `list_clear`: capture the collection's size as the prior size and emit
`ArrayClear`. -/
def list_clear (db : Database) (s : SyncState) (view : Collection)
    (fuel : Nat) : ROut Unit :=
  let prior_size := view.size
  let (s, sel) := select_collection s view
  if sel then
    (populate_path_instr_col db s view fuel).bindR fun s instr =>
      .ok (s.emit (.arrayClear instr prior_size)) ()
  else .ok s ()

/-- `dictionary_insert`: assert the key is a string (fatal otherwise),
append the interned key as the last path component, and emit
`DictionaryInsert` with the translated payload. -/
def dictionary_insert (db : Database) (s : SyncState) (view : Collection)
    (key : Mixed) (val : Mixed) (fuel : Nat) : ROut Unit :=
  let (s, sel) := select_collection s view
  if sel then
    match key with
    | .str key_value =>
        (populate_path_instr_col db s view fuel).bindR fun s instr =>
          let (e, h) := s.encoder.intern key_value
          let s := { s with encoder := e }
          let instr := { instr with path := instr.path ++ [.field h] }
          (as_payload_col db s view val).bindR fun s pay =>
            .ok (s.emit (.dictionaryInsert instr pay)) ()
    | _ => .invariant
  else .ok s ()

/-- `dictionary_erase`: assert the key is a string (fatal otherwise), append
the interned key as the last path component, and emit `DictionaryErase`. -/
def dictionary_erase (db : Database) (s : SyncState) (view : Collection)
    (key : Mixed) (fuel : Nat) : ROut Unit :=
  let (s, sel) := select_collection s view
  if sel then
    match key with
    | .str key_value =>
        (populate_path_instr_col db s view fuel).bindR fun s instr =>
          let (e, h) := s.encoder.intern key_value
          let s := { s with encoder := e }
          let instr := { instr with path := instr.path ++ [.field h] }
          .ok (s.emit (.dictionaryErase instr)) ()
    | _ => .invariant
  else .ok s ()

/-- `nullify_link`: emit a null `Update` for the link field (asserting the
path addresses a field, not an array element). -/
def nullify_link (db : Database) (s : SyncState) (t : Table) (col : Nat)
    (key : ObjKey) (fuel : Nat) : ROut Unit :=
  let (s, sel) := select_table s t
  if sel then
    (populate_path_instr db s t key col fuel).bindR fun s instr =>
      if instr.isArrayUpdate then .invariant
      else .ok (s.emit (.update instr .null false 0)) ()
  else .ok s ()

/-- `link_list_nullify`: capture the prior size and emit `ArrayErase`. -/
def link_list_nullify (db : Database) (s : SyncState) (view : Collection)
    (ndx : Nat) (fuel : Nat) : ROut Unit :=
  let prior_size := view.size
  let (s, sel) := select_collection s view
  if sel then
    (populate_path_instr_ndx db s view ndx fuel).bindR fun s instr =>
      .ok (s.emit (.arrayErase instr prior_size)) ()
  else .ok s ()

/-! ### Spec-side reference emitter without the selection cache

The spec describes the object/field part of the Selection Cache as a
correctness-neutral, throughput-only optimization; the reference semantics
re-resolves the identity and re-interns the field name on every
operation. -/

/-- The cache-free reference form of the non-embedded `populate_path_instr`
branch, following the spec's words: every operation resolves the object's
identity through the Identity Resolver and interns the field name afresh;
no cached identity or field handle is consulted or written. -/
def populate_top_nocache (s : SyncState) (t : Table) (key : ObjKey)
    (field : Nat) (instr : PathInstr) : ROut PathInstr :=
  let (s, should_emit) := select_table s t
  if !should_emit then .invariant
  else
    let instr := { instr with table := s.m_last_class_name.getD 0 }
    (primary_key_for_object s t key).bindR fun s pk =>
      let instr := { instr with object := pk }
      match t.getColumn field with
      | none => .invariant
      | some col =>
          let (e, h) := s.encoder.intern col.name
          .ok { s with encoder := e } { instr with field := h }

/-- The cache-free reference form of `set` (spec §4.4/§8: caching must be
transparent to the produced changeset). -/
def set_nocache (db : Database) (s : SyncState) (t : Table) (col : Nat)
    (key : ObjKey) (value : Mixed) (variant : SetVariant) : ROut Unit :=
  if isUnresolvedLink value then .ok s ()
  else
    let (s, sel) := select_table s t
    if sel then
      (populate_top_nocache s t key col {}).bindR fun s instr =>
        (as_payload db s t col value).bindR fun s pay =>
          .ok (s.emit (.update instr pay (variant = .instr_SetDefault) 0)) ()
    else .ok s ()

/-! ### Wellformedness predicates used as hypotheses -/

/-- The declared primary key of row `o` in table `t` is readable and of a
protocol-supported kind (an engine invariant for real tables: declared
primary keys are Int64, String or ObjectId, and the stored value matches
the declared type). -/
def PKOk (t : Table) (o : ObjRec) : Prop :=
  match t.pkCol with
  | none => True
  | some pkc =>
      ∃ col, t.getColumn pkc = some col ∧
        ((o.getField pkc).is_null = true ∨
         ((∃ v, o.getField pkc = .int v) ∧ col.dtype = .type_Int) ∨
         ((∃ v, o.getField pkc = .str v) ∧ col.dtype = .type_String) ∨
         ((∃ v, o.getField pkc = .objectId v) ∧ col.dtype = .type_ObjectId))

/-- `pk` is the translated identity of row `o` of table `t`, with interned
strings read back through encoder `e`. -/
def RowPK (e : Encoder) (t : Table) (o : ObjRec) (pk : PrimaryKey) : Prop :=
  match t.pkCol with
  | none => pk = .globalKey o.globalKey
  | some pkc =>
      ((o.getField pkc).is_null = true ∧ pk = .null) ∨
      (∃ v, o.getField pkc = .int v ∧ pk = .int v) ∨
      (∃ v, o.getField pkc = .str v ∧ ∃ h, pk = .interned h ∧ e.decode h = some v) ∨
      (∃ v, o.getField pkc = .objectId v ∧ pk = .objectId v)

/-- `pk` is `as_primary_key`'s translation of the given value, with interned
strings read back through encoder `e`. -/
def TranslatedPK (e : Encoder) (v : Mixed) (pk : PrimaryKey) : Prop :=
  match v with
  | .null => pk = .null
  | .int n => pk = .int n
  | .str t => ∃ h, pk = .interned h ∧ e.decode h = some t
  | .objectId o => pk = .objectId o
  | _ => False

/-- The value can be translated by `as_payload` without hitting a missing
lookup: link values need their target column/table present and, for
non-embedded targets, a selectable target table with a readable primary
key. -/
def PayloadOk (db : Database) (t : Table) (colKey : Nat) (v : Mixed) : Prop :=
  match v with
  | .link k =>
      ∃ col targetKey tt, t.getColumn colKey = some col ∧
        col.target = some targetKey ∧ db.getTable targetKey = some tt ∧
        (tt.embedded = true ∨
         (beginsWithClass tt.name = true ∧
          ∃ o, tt.get_object k = some o ∧ PKOk tt o))
  | .typedLink tk k =>
      ∃ tt, db.getTable tk = some tt ∧ tt.embedded = false ∧
        beginsWithClass tt.name = true ∧
        ∃ o, tt.get_object k = some o ∧ PKOk tt o
  | _ => True

/-- Declared primary-key column types the protocol's identity translation
supports. -/
def isKeyDType : DataType → Bool
  | .type_Int => true
  | .type_String => true
  | .type_ObjectId => true
  | _ => false

/-- `v` is not a link-typed value (so `as_payload` needs no table
context and resolves no identities). -/
def isLinkish : Mixed → Bool
  | .link _ => true
  | .typedLink _ _ => true
  | _ => false

/-! ### Decoded path components -/

/-- A path component with its interned strings read back. -/
inductive PathName where
  | field (s : String)
  | index (n : Nat)
deriving DecidableEq, Repr

def decodeComponent (e : Encoder) : PathComponent → Option PathName
  | .field h => (e.decode h).map .field
  | .index n => some (.index n)

def decodePath (e : Encoder) : List PathComponent → Option (List PathName)
  | [] => some []
  | c :: t =>
      match decodeComponent e c, decodePath e t with
      | some n, some r => some (n :: r)
      | _, _ => none

/-- The decoded path contribution of one non-top traversal entry: the field
name leading to the next level, plus that level's list index when the field
is a list. -/
def entryNames (db : Database) (p : ParentLink) : List PathName :=
  match db.getTable p.table with
  | none => []
  | some et =>
      match et.getColumn p.field with
      | none => []
      | some col => [.field col.name] ++ (if col.isList then [.index p.index] else [])

/-! ### Concrete fixtures used by witnesses and counterexamples -/

/-- A freshly reset emitter state (transaction start, replication on). -/
def initSt : SyncState :=
  { encoder := ⟨[], []⟩, instrs := [], m_last_table := none,
    m_last_object := none, m_last_field := none, m_last_class_name := none,
    m_last_primary_key := some .null, m_last_field_name := none,
    m_table_being_erased := "", m_short_circuit := false }

/-- A replicated top-level table `class_Top` with an Int64 primary key and a
list-of-embedded column `items`. -/
def tTop : Table :=
  { key := 1, name := "class_Top", embedded := false,
    columns := [⟨10, "_id", .type_Int, false, false, false, .type_Int, none⟩,
                ⟨11, "items", .type_LinkList, false, true, false, .type_Int, some 2⟩],
    pkCol := some 10,
    objs := [{ key := ⟨1, false⟩, fields := [(10, .int 1)], globalKey := 101 }] }

/-- The embedded table holding the elements of `class_Top.items`; its one
row lives at list index 3 of the top object's `items`. -/
def tEmb : Table :=
  { key := 2, name := "class_Top_items", embedded := true,
    columns := [⟨20, "x", .type_Int, false, false, false, .type_Int, none⟩],
    pkCol := none,
    objs := [{ key := ⟨2, false⟩, fields := [], globalKey := 102,
               parent := some ⟨1, ⟨1, false⟩, 11, 3⟩ }] }

/-- A replicated table `class_A` with a link-list column targeting
`class_B`. -/
def tLinkA : Table :=
  { key := 3, name := "class_A", embedded := false,
    columns := [⟨30, "links", .type_LinkList, false, true, false, .type_Int, some 4⟩],
    pkCol := none,
    objs := [{ key := ⟨1, false⟩, fields := [], globalKey := 301 }] }

/-- A replicated table `class_B` containing one tombstoned (unresolved)
row. -/
def tLinkB : Table :=
  { key := 4, name := "class_B", embedded := false,
    columns := [],
    pkCol := none,
    objs := [{ key := ⟨5, true⟩, fields := [], globalKey := 401 }] }

/-- A replicated table `class_D` with a dictionary column. -/
def tDict : Table :=
  { key := 5, name := "class_D", embedded := false,
    columns := [⟨50, "dict", .type_Mixed, true, false, true, .type_Int, none⟩],
    pkCol := none,
    objs := [{ key := ⟨1, false⟩, fields := [], globalKey := 501 }] }

/-- A replicated table `class_P` whose declared primary key is a
non-nullable Int64. -/
def tPkInt : Table :=
  { key := 6, name := "class_P", embedded := false,
    columns := [⟨60, "_id", .type_Int, false, false, false, .type_Int, none⟩],
    pkCol := some 60,
    objs := [] }

/-- A non-replicated (internal) table: its name does not begin with
`class_`. -/
def tNonRep : Table :=
  { key := 7, name := "pk", embedded := false,
    columns := [⟨70, "c", .type_Int, false, false, false, .type_Int, none⟩],
    pkCol := none,
    objs := [{ key := ⟨1, false⟩, fields := [], globalKey := 701 }] }

/-- The fixture database. -/
def db0 : Database := ⟨[tTop, tEmb, tLinkA, tLinkB, tDict, tPkInt, tNonRep]⟩

/-- The list collection `class_A.links` of `class_A`'s only row. -/
def viewLinks : Collection := ⟨tLinkA, ⟨1, false⟩, 30, 0⟩

/-- The dictionary collection `class_D.dict` of `class_D`'s only row. -/
def viewDict : Collection := ⟨tDict, ⟨1, false⟩, 50, 2⟩

/-- The list collection `class_Top.items` of the top object. -/
def viewItems : Collection := ⟨tTop, ⟨1, false⟩, 11, 4⟩

/-- A mid-transaction state whose cache points at another table (key 9) and
still holds an interned field-name handle. -/
def staleSt : SyncState :=
  { initSt with m_last_table := some 9, m_last_field_name := some 5 }

/-- Pure form of the scalar payload translation: the encoder effect and the
payload produced by `as_payload` on non-link values (the link entries are
unused placeholders). -/
def payload_of (e : Encoder) : Mixed → Encoder × Payload
  | .null => (e, .null)
  | .int v => (e, .int v)
  | .bool b => (e, .bool b)
  | .float f => (e, .float f)
  | .double d => (e, .double d)
  | .str s => ((e.addRange s).1, .strRange (e.addRange s).2)
  | .binary b => ((e.addRange b).1, .binRange (e.addRange b).2)
  | .timestamp t => (e, .timestamp t)
  | .decimal d => (e, .decimal d)
  | .objectId o => (e, .objectId o)
  | .link _ => (e, .null)
  | .typedLink _ _ => (e, .null)

/-- Pure form of the identity translation of row `o` of table `t`: the
encoder effect and primary key computed by `primary_key_for_object`
(meaningful for rows satisfying `PKOk`; the fall-through is an unused
placeholder). -/
def rowPK_of (e : Encoder) (t : Table) (o : ObjRec) : Encoder × PrimaryKey :=
  match t.pkCol with
  | none => (e, .globalKey o.globalKey)
  | some pkc =>
      if (o.getField pkc).is_null then (e, .null)
      else
        match o.getField pkc with
        | .int v => (e, .int v)
        | .str v => ((e.intern v).1, .interned (e.intern v).2)
        | .objectId v => (e, .objectId v)
        | _ => (e, .null)

/-- Encoder `e'` has the strings of `e` as a prefix (the interning table is
append-only within a changeset). -/
def StrExt (e e' : Encoder) : Prop :=
  ∃ l, e'.strings = e.strings ++ l

/-! # Theorems -/

/-! ### Encoder lemmas -/

theorem findIdx_beq_get (l : List String) (s : String) (i : Nat)
    (h : l.findIdx? (fun t => t == s) = some i) : l.get? i = some s := by
  induction l generalizing i with
  | nil => simp [List.findIdx?] at h
  | cons a t ih =>
      rw [List.findIdx?_cons] at h
      by_cases hp : a = s
      · simp [hp] at h
        subst hp h
        rfl
      · have hps : (a == s) = false := beq_false_of_ne hp
        simp [hps] at h
        obtain ⟨j, hj, hji⟩ := h
        subst hji
        simpa using ih j hj

theorem intern_decode_self (e : Encoder) (s : String) :
    (e.intern s).1.decode (e.intern s).2 = some s := by
  unfold Encoder.intern Encoder.decode
  cases h : e.strings.findIdx? (fun t => t == s) with
  | some i => simpa using findIdx_beq_get _ _ _ h
  | none => simp

theorem intern_buffer (e : Encoder) (s : String) :
    (e.intern s).1.buffer = e.buffer := by
  unfold Encoder.intern
  cases h : e.strings.findIdx? (fun t => t == s) <;> simp

theorem addRange_strings (e : Encoder) (s : String) :
    (e.addRange s).1.strings = e.strings := rfl

theorem strExt_refl (e : Encoder) : StrExt e e := ⟨[], by simp⟩

theorem strExt_trans {e₁ e₂ e₃ : Encoder} (h₁ : StrExt e₁ e₂)
    (h₂ : StrExt e₂ e₃) : StrExt e₁ e₃ := by
  obtain ⟨l₁, h₁⟩ := h₁
  obtain ⟨l₂, h₂⟩ := h₂
  exact ⟨l₁ ++ l₂, by simp [h₂, h₁]⟩

theorem intern_strExt (e : Encoder) (s : String) : StrExt e (e.intern s).1 := by
  unfold Encoder.intern
  cases h : e.strings.findIdx? (fun t => t == s) with
  | some i => exact strExt_refl e
  | none => exact ⟨[s], rfl⟩

theorem addRange_strExt (e : Encoder) (s : String) : StrExt e (e.addRange s).1 :=
  ⟨[], by simp [Encoder.addRange]⟩

theorem decode_mono {e e' : Encoder} (hx : StrExt e e') {h : Nat} {v : String}
    (hd : e.decode h = some v) : e'.decode h = some v := by
  obtain ⟨l, hl⟩ := hx
  unfold Encoder.decode at *
  rw [hl, List.get?_eq_getElem?] at *
  rw [List.getElem?_append_left]
  · exact hd
  · exact (List.getElem?_eq_some.mp hd).1

theorem findIdx_mono {l l2 : List String} {p : String → Bool} {i : Nat}
    (h : l.findIdx? p = some i) : (l ++ l2).findIdx? p = some i := by
  rw [List.findIdx?_append, h]
  rfl

theorem intern_of_found {e : Encoder} {s : String} {h : Nat}
    (hf : e.strings.findIdx? (fun t => t == s) = some h) :
    e.intern s = (e, h) := by
  unfold Encoder.intern
  rw [hf]

theorem findIdx_after_intern (e : Encoder) (s : String) :
    ((e.intern s).1).strings.findIdx? (fun t => t == s) = some (e.intern s).2 := by
  unfold Encoder.intern
  cases hf : e.strings.findIdx? (fun t => t == s) with
  | some i => simpa using hf
  | none =>
      simp only
      rw [List.findIdx?_append, hf]
      simp [List.findIdx?_cons]

/-- Interning already-interned text is a no-op returning the same handle. -/
theorem intern_stable {e e' : Encoder} {s : String}
    (hx : StrExt (e.intern s).1 e') :
    e'.intern s = (e', (e.intern s).2) := by
  obtain ⟨l, hl⟩ := hx
  apply intern_of_found
  rw [hl]
  exact findIdx_mono (findIdx_after_intern e s)

theorem decodeComponent_mono {e e' : Encoder} (hx : StrExt e e')
    {c : PathComponent} {n : PathName} (hd : decodeComponent e c = some n) :
    decodeComponent e' c = some n := by
  cases c with
  | field h =>
      simp only [decodeComponent] at hd ⊢
      cases hdec : e.decode h with
      | none => rw [hdec] at hd; simp at hd
      | some v =>
          rw [hdec] at hd
          rw [decode_mono hx hdec]
          exact hd
  | index n' => exact hd

theorem decodePath_mono {e e' : Encoder} (hx : StrExt e e')
    {l : List PathComponent} {r : List PathName}
    (hd : decodePath e l = some r) : decodePath e' l = some r := by
  induction l generalizing r with
  | nil => simpa [decodePath] using hd
  | cons c t ih =>
      unfold decodePath at hd ⊢
      cases hc : decodeComponent e c with
      | none => rw [hc] at hd; simp at hd
      | some n =>
          rw [hc] at hd
          rw [decodeComponent_mono hx hc]
          cases ht : decodePath e t with
          | none => rw [ht] at hd; simp at hd
          | some r' =>
              rw [ht] at hd
              rw [ih ht]
              exact hd

theorem decodePath_append (e : Encoder) (l₁ l₂ : List PathComponent) :
    decodePath e (l₁ ++ l₂) =
      (decodePath e l₁).bind fun a => (decodePath e l₂).map (a ++ ·) := by
  induction l₁ with
  | nil =>
      simp only [List.nil_append, decodePath]
      cases decodePath e l₂ <;> rfl
  | cons c t ih =>
      simp only [List.cons_append, decodePath]
      rw [show t.append l₂ = t ++ l₂ from rfl, ih]
      cases decodeComponent e c <;> cases decodePath e t <;>
        cases decodePath e l₂ <;> rfl

/-! ### Selection lemmas -/

theorem select_table_instrs (s : SyncState) (t : Table) :
    (select_table s t).1.instrs = s.instrs := by
  unfold select_table emit_class_name
  split
  · rfl
  · split
    · rfl
    · split <;> rfl

theorem select_table_strExt (s : SyncState) (t : Table) :
    StrExt s.encoder (select_table s t).1.encoder := by
  unfold select_table emit_class_name
  split
  · exact strExt_refl _
  · split
    · exact strExt_refl _
    · split
      · exact intern_strExt _ _
      · exact strExt_refl _

theorem select_table_buffer (s : SyncState) (t : Table) :
    (select_table s t).1.encoder.buffer = s.encoder.buffer := by
  unfold select_table emit_class_name
  split
  · rfl
  · split
    · rfl
    · split
      · exact intern_buffer _ _
      · rfl

theorem select_table_short (s : SyncState) (t : Table) :
    (select_table s t).1.m_short_circuit = s.m_short_circuit := by
  unfold select_table emit_class_name
  split
  · rfl
  · split
    · rfl
    · split <;> rfl

theorem select_table_erased (s : SyncState) (t : Table) :
    (select_table s t).1.m_table_being_erased = s.m_table_being_erased := by
  unfold select_table emit_class_name
  split
  · rfl
  · split
    · rfl
    · split <;> rfl

theorem select_table_resolves (s : SyncState) (t : Table) :
    (select_table s t).1.resolves = s.resolves := by
  unfold select_table emit_class_name
  split
  · rfl
  · split
    · rfl
    · split <;> rfl

/-- Replicated tables are always selectable when replication is on. -/
theorem select_table_true (s : SyncState) (t : Table)
    (hc : beginsWithClass t.name = true) (hs : s.m_short_circuit = false) :
    (select_table s t).2 = true := by
  unfold select_table emit_class_name
  rw [if_neg (by simp [hs])]
  by_cases hl : s.m_last_table = some t.key
  · rw [if_pos hl]
  · rw [if_neg hl, if_pos hc]

/-- Non-replicated tables that are not the cached table are never selected,
and selection leaves the state untouched. -/
theorem select_table_false (s : SyncState) (t : Table)
    (hc : beginsWithClass t.name = false)
    (hlast : s.m_last_table ≠ some t.key) :
    select_table s t = (s, false) := by
  unfold select_table emit_class_name
  by_cases hsh : s.m_short_circuit = true
  · rw [if_pos hsh]
  · rw [if_neg hsh, if_neg hlast, if_neg (by simp [hc])]

/-- Selecting a replicated table different from the cached one interns its
class name and clears the cached field, object and primary key. -/
theorem select_table_fresh (s : SyncState) (t : Table)
    (hc : beginsWithClass t.name = true) (hs : s.m_short_circuit = false)
    (hlast : s.m_last_table ≠ some t.key) :
    select_table s t =
      ({ s with
          encoder := (s.encoder.intern (table_name_to_class_name t.name)).1
          m_last_class_name := some (s.encoder.intern (table_name_to_class_name t.name)).2
          m_last_table := some t.key
          m_last_field := none
          m_last_object := none
          m_last_primary_key := none }, true) := by
  unfold select_table emit_class_name
  rw [if_neg (by simp [hs]), if_neg hlast, if_pos hc]

end RealmSync

namespace RealmSync

/-! ### Claim theorems -/

/-- C6: every call to rename a table or a column, for any arguments
(including non-replicated tables), raises `UnsupportedInstruction` with the
state — and hence the changeset — unchanged. -/
theorem renames_always_unsupported (s : SyncState) (tk : Nat) (n : String)
    (t : Table) (c : Nat) (n2 : String) :
    rename_group_level_table s tk n = .unsupported s ∧
    rename_column s t c n2 = .unsupported s :=
  ⟨rfl, rfl⟩

/-- C3 (amended): a field-set call and a list-set call whose value is a link
to an unresolved (tombstoned) object return with the state — and hence the
changeset — unchanged. -/
theorem unresolved_link_set_suppressed (db : Database) (s : SyncState)
    (t : Table) (col : Nat) (key : ObjKey) (v : Mixed) (variant : SetVariant)
    (view : Collection) (ndx fuel : Nat)
    (h : isUnresolvedLink v = true) :
    set db s t col key v variant fuel = .ok s () ∧
    list_set db s view ndx v fuel = .ok s () := by
  unfold set list_set
  rw [if_pos h, if_pos h]
  exact ⟨rfl, rfl⟩

/-- C3 witness: the suppression at a concrete unresolved link. -/
theorem unresolved_link_set_suppressed_witness :
    isUnresolvedLink (.link ⟨5, true⟩) = true ∧
    set db0 initSt tLinkA 30 ⟨1, false⟩ (.link ⟨5, true⟩) .instr_Set 8 = .ok initSt () ∧
    list_set db0 initSt viewLinks 0 (.link ⟨5, true⟩) 8 = .ok initSt () :=
  ⟨rfl,
   (unresolved_link_set_suppressed db0 initSt tLinkA 30 ⟨1, false⟩
      (.link ⟨5, true⟩) .instr_Set viewLinks 0 8 rfl).1,
   (unresolved_link_set_suppressed db0 initSt tLinkA 30 ⟨1, false⟩
      (.link ⟨5, true⟩) .instr_Set viewLinks 0 8 rfl).2⟩

/-- C3 counterexample: a list-insert of a link to an unresolved (tombstoned)
object *does* append an `ArrayInsert` instruction (the claim's list-insert
half fails on the code: `list_insert` has no unresolved-link guard). -/
theorem list_insert_unresolved_emits :
    (list_insert db0 initSt viewLinks 0 (.link ⟨5, true⟩) 8).outInstrs =
      some [.arrayInsert ⟨0, .globalKey 301, 1, [.index 0]⟩
              (.link 2 (.globalKey 401)) 0] := by
  rfl

/-- C5 counterexample: a dictionary insert/erase with a non-string key on a
selected replicated table fails the fatal `REALM_ASSERT(key.get_type() ==
type_String)` — it does not raise `UnsupportedInstruction`. -/
theorem dictionary_nonstring_key_asserts :
    dictionary_insert db0 initSt viewDict (.int 7) (.int 1) 8 = .invariant ∧
    dictionary_erase db0 initSt viewDict (.int 7) 8 = .invariant :=
  ⟨rfl, rfl⟩

/-- C4 counterexample: a column rename on a non-replicated table raises
`UnsupportedInstruction`, contradicting "zero instructions are emitted and
no error is raised" for every mutation callback on non-replicated
tables. -/
theorem rename_on_non_replicated_raises :
    beginsWithClass tNonRep.name = false ∧
    rename_column initSt tNonRep 70 "z" = .unsupported initSt :=
  ⟨rfl, rfl⟩

/-- C2 counterexample: creating an object with a null primary-key value on a
table whose declared primary key is a non-nullable Int64 hits the fatal
`Mixed::get_type()` null assertion — it does not raise
`UnsupportedInstruction`. -/
theorem create_with_null_pk_non_nullable_asserts :
    create_object_with_primary_key initSt tPkInt .null = .invariant := by
  rfl

/-- C10 counterexample: selecting a different (replicated) table clears the
cached object, primary key and field key, but the cached interned field
name is *not* cleared. -/
theorem select_table_retains_field_name :
    staleSt.m_last_table ≠ some tTop.key ∧
    (select_table staleSt tTop).2 = true ∧
    (select_table staleSt tTop).1.m_last_field_name = some 5 :=
  ⟨by decide, rfl, rfl⟩

end RealmSync

namespace RealmSync

/-! ### Resolver and payload success lemmas -/

/-- On a selectable table with a readable primary key,
`primary_key_for_object` succeeds, leaves the changeset untouched, only
appends to the interning table, and returns the row's translated
identity. -/
theorem pk_ok (s : SyncState) (t : Table) (key : ObjKey) (o : ObjRec)
    (hc : beginsWithClass t.name = true) (hs : s.m_short_circuit = false)
    (ho : t.get_object key = some o) (hpk : PKOk t o) :
    ∃ s' pk, primary_key_for_object s t key = .ok s' pk ∧
      s'.instrs = s.instrs ∧ StrExt s.encoder s'.encoder ∧
      s'.encoder.buffer = s.encoder.buffer ∧
      s'.m_short_circuit = false ∧
      s'.m_table_being_erased = s.m_table_being_erased ∧
      s'.resolves = s.resolves + 1 ∧
      RowPK s'.encoder t o pk := by
  unfold primary_key_for_object
  cases hst : select_table { s with resolves := s.resolves + 1 } t with
  | mk s1 sel =>
    have hsel : sel = true := by
      have h2 := select_table_true { s with resolves := s.resolves + 1 } t hc hs
      rw [hst] at h2; exact h2
    subst hsel
    have hinstr : s1.instrs = s.instrs := by
      have h2 := select_table_instrs { s with resolves := s.resolves + 1 } t
      rw [hst] at h2; exact h2
    have hext : StrExt s.encoder s1.encoder := by
      have h2 := select_table_strExt { s with resolves := s.resolves + 1 } t
      rw [hst] at h2; exact h2
    have hbuf : s1.encoder.buffer = s.encoder.buffer := by
      have h2 := select_table_buffer { s with resolves := s.resolves + 1 } t
      rw [hst] at h2; exact h2
    have hshort : s1.m_short_circuit = false := by
      have h2 := select_table_short { s with resolves := s.resolves + 1 } t
      rw [hst] at h2; exact h2.trans hs
    have her : s1.m_table_being_erased = s.m_table_being_erased := by
      have h2 := select_table_erased { s with resolves := s.resolves + 1 } t
      rw [hst] at h2; exact h2
    have hres : s1.resolves = s.resolves + 1 := by
      have h2 := select_table_resolves { s with resolves := s.resolves + 1 } t
      rw [hst] at h2; exact h2
    simp only [hst, Bool.not_true, Bool.false_eq_true, if_false]
    cases hpkc : t.pkCol with
    | none =>
        simp only [ho]
        refine ⟨s1, .globalKey o.globalKey, rfl, hinstr, hext, hbuf, hshort, her, hres, ?_⟩
        unfold RowPK
        rw [hpkc]
    | some pkc =>
        unfold PKOk at hpk
        rw [hpkc] at hpk
        obtain ⟨col, hcol, hval⟩ := hpk
        simp only [hcol, ho]
        rcases hval with hnull | ⟨⟨v, hv⟩, hd⟩ | ⟨⟨v, hv⟩, hd⟩ | ⟨⟨v, hv⟩, hd⟩
        · rw [if_pos hnull]
          refine ⟨s1, .null, rfl, hinstr, hext, hbuf, hshort, her, hres, ?_⟩
          unfold RowPK
          rw [hpkc]
          exact Or.inl ⟨hnull, rfl⟩
        · rw [if_neg (by rw [hv]; simp [Mixed.is_null]), if_pos hd, hv]
          refine ⟨s1, .int v, rfl, hinstr, hext, hbuf, hshort, her, hres, ?_⟩
          unfold RowPK
          rw [hpkc]
          exact Or.inr (Or.inl ⟨v, hv, rfl⟩)
        · rw [if_neg (by rw [hv]; simp [Mixed.is_null])]
          rw [if_neg (by rw [hd]; simp), if_pos hd, hv]
          refine ⟨{ s1 with encoder := (s1.encoder.intern v).1 },
            .interned (s1.encoder.intern v).2, rfl, hinstr, ?_, ?_, hshort, her, hres, ?_⟩
          · exact strExt_trans hext (intern_strExt _ _)
          · rw [intern_buffer]; exact hbuf
          · unfold RowPK
            rw [hpkc]
            exact Or.inr (Or.inr (Or.inl ⟨v, hv, _, rfl, intern_decode_self _ _⟩))
        · rw [if_neg (by rw [hv]; simp [Mixed.is_null])]
          rw [if_neg (by rw [hd]; simp), if_neg (by rw [hd]; simp), if_pos hd, hv]
          refine ⟨s1, .objectId v, rfl, hinstr, hext, hbuf, hshort, her, hres, ?_⟩
          unfold RowPK
          rw [hpkc]
          exact Or.inr (Or.inr (Or.inr ⟨v, hv, rfl⟩))

end RealmSync

namespace RealmSync

/-- Non-link values translate without consulting tables: the changeset is
untouched and the interning table only grows. -/
theorem as_payload_scalar_ok (s : SyncState) (v : Mixed)
    (hlink : isLinkish v = false) :
    ∃ s' p, as_payload_scalar s v = .ok s' p ∧ s'.instrs = s.instrs ∧
      StrExt s.encoder s'.encoder ∧
      s'.m_short_circuit = s.m_short_circuit ∧
      s'.m_table_being_erased = s.m_table_being_erased ∧
      s'.resolves = s.resolves := by
  cases v with
  | link k => simp [isLinkish] at hlink
  | typedLink tk k => simp [isLinkish] at hlink
  | str t =>
      exact ⟨_, _, rfl, rfl, addRange_strExt _ _, rfl, rfl, rfl⟩
  | binary b =>
      exact ⟨_, _, rfl, rfl, addRange_strExt _ _, rfl, rfl, rfl⟩
  | null => exact ⟨_, _, rfl, rfl, strExt_refl _, rfl, rfl, rfl⟩
  | int n => exact ⟨_, _, rfl, rfl, strExt_refl _, rfl, rfl, rfl⟩
  | bool b => exact ⟨_, _, rfl, rfl, strExt_refl _, rfl, rfl, rfl⟩
  | float f => exact ⟨_, _, rfl, rfl, strExt_refl _, rfl, rfl, rfl⟩
  | double d => exact ⟨_, _, rfl, rfl, strExt_refl _, rfl, rfl, rfl⟩
  | timestamp t => exact ⟨_, _, rfl, rfl, strExt_refl _, rfl, rfl, rfl⟩
  | decimal d => exact ⟨_, _, rfl, rfl, strExt_refl _, rfl, rfl, rfl⟩
  | objectId o => exact ⟨_, _, rfl, rfl, strExt_refl _, rfl, rfl, rfl⟩

/-- A translatable value yields a payload without touching the changeset. -/
theorem as_payload_ok (db : Database) (s : SyncState) (t : Table) (ck : Nat)
    (v : Mixed) (hs : s.m_short_circuit = false)
    (hv : PayloadOk db t ck v) :
    ∃ s' p, as_payload db s t ck v = .ok s' p ∧ s'.instrs = s.instrs ∧
      StrExt s.encoder s'.encoder ∧
      s'.m_short_circuit = false ∧
      s'.m_table_being_erased = s.m_table_being_erased := by
  cases v with
  | null => exact ⟨s, .null, rfl, rfl, strExt_refl _, hs, rfl⟩
  | link k =>
      unfold PayloadOk at hv
      obtain ⟨col, targetKey, tt, hcol, htgt, hdb, hcase⟩ := hv
      unfold as_payload
      simp only [hcol, htgt, hdb]
      rcases hcase with hemb | ⟨htc, o, hobj, hpk⟩
      · rw [if_pos hemb]
        exact ⟨s, .objectValue, rfl, rfl, strExt_refl _, hs, rfl⟩
      · by_cases hemb : tt.embedded = true
        · rw [if_pos hemb]
          exact ⟨s, .objectValue, rfl, rfl, strExt_refl _, hs, rfl⟩
        · rw [if_neg hemb]
          unfold emit_class_name
          obtain ⟨s2, pk, hpke, hinstr, hext, hbuf, hshort, her, hres, hrow⟩ :=
            pk_ok { s with encoder := (s.encoder.intern (table_name_to_class_name tt.name)).1 }
              tt k o htc hs hobj hpk
          rw [hpke]
          refine ⟨s2, _, rfl, hinstr, ?_, hshort, her⟩
          exact strExt_trans (intern_strExt _ _) hext
  | typedLink tk k =>
      unfold PayloadOk at hv
      obtain ⟨tt, hdb, hemb, htc, o, hobj, hpk⟩ := hv
      unfold as_payload
      simp only [hdb]
      rw [if_neg (by simp [hemb])]
      unfold emit_class_name
      obtain ⟨s2, pk, hpke, hinstr, hext, hbuf, hshort, her, hres, hrow⟩ :=
        pk_ok { s with encoder := (s.encoder.intern (table_name_to_class_name tt.name)).1 }
          tt k o htc hs hobj hpk
      rw [hpke]
      refine ⟨s2, _, rfl, hinstr, ?_, hshort, her⟩
      exact strExt_trans (intern_strExt _ _) hext
  | str v =>
      obtain ⟨s', p, he, h1, h2, h3, h4, h5⟩ := as_payload_scalar_ok s (.str v) rfl
      exact ⟨s', p, he, h1, h2, h3.trans hs, h4⟩
  | binary v =>
      obtain ⟨s', p, he, h1, h2, h3, h4, h5⟩ := as_payload_scalar_ok s (.binary v) rfl
      exact ⟨s', p, he, h1, h2, h3.trans hs, h4⟩
  | int n =>
      obtain ⟨s', p, he, h1, h2, h3, h4, h5⟩ := as_payload_scalar_ok s (.int n) rfl
      exact ⟨s', p, he, h1, h2, h3.trans hs, h4⟩
  | bool b =>
      obtain ⟨s', p, he, h1, h2, h3, h4, h5⟩ := as_payload_scalar_ok s (.bool b) rfl
      exact ⟨s', p, he, h1, h2, h3.trans hs, h4⟩
  | float f =>
      obtain ⟨s', p, he, h1, h2, h3, h4, h5⟩ := as_payload_scalar_ok s (.float f) rfl
      exact ⟨s', p, he, h1, h2, h3.trans hs, h4⟩
  | double d =>
      obtain ⟨s', p, he, h1, h2, h3, h4, h5⟩ := as_payload_scalar_ok s (.double d) rfl
      exact ⟨s', p, he, h1, h2, h3.trans hs, h4⟩
  | timestamp t' =>
      obtain ⟨s', p, he, h1, h2, h3, h4, h5⟩ := as_payload_scalar_ok s (.timestamp t') rfl
      exact ⟨s', p, he, h1, h2, h3.trans hs, h4⟩
  | decimal d =>
      obtain ⟨s', p, he, h1, h2, h3, h4, h5⟩ := as_payload_scalar_ok s (.decimal d) rfl
      exact ⟨s', p, he, h1, h2, h3.trans hs, h4⟩
  | objectId o =>
      obtain ⟨s', p, he, h1, h2, h3, h4, h5⟩ := as_payload_scalar_ok s (.objectId o) rfl
      exact ⟨s', p, he, h1, h2, h3.trans hs, h4⟩

end RealmSync

namespace RealmSync

/-- On a selectable table with a readable primary key and an existing leaf
column, the non-embedded path population succeeds, leaves the changeset
untouched, only appends to the interning table, and leaves the incoming
path components unchanged. -/
theorem populate_top_ok (s : SyncState) (t : Table) (key : ObjKey)
    (field : Nat) (instr0 : PathInstr) (o : ObjRec) (fcol : Column)
    (hc : beginsWithClass t.name = true) (hs : s.m_short_circuit = false)
    (ho : t.get_object key = some o) (hpk : PKOk t o)
    (hcol : t.getColumn field = some fcol) :
    ∃ s' instr, populate_top s t key field instr0 = .ok s' instr ∧
      s'.instrs = s.instrs ∧ StrExt s.encoder s'.encoder ∧
      s'.m_short_circuit = false ∧
      s'.m_table_being_erased = s.m_table_being_erased ∧
      instr.path = instr0.path := by
  unfold populate_top
  cases hst : select_table s t with
  | mk s1 sel =>
    have hsel : sel = true := by
      have h2 := select_table_true s t hc hs
      rw [hst] at h2; exact h2
    subst hsel
    have hinstr : s1.instrs = s.instrs := by
      have h2 := select_table_instrs s t; rw [hst] at h2; exact h2
    have hext : StrExt s.encoder s1.encoder := by
      have h2 := select_table_strExt s t; rw [hst] at h2; exact h2
    have hshort : s1.m_short_circuit = false := by
      have h2 := select_table_short s t; rw [hst] at h2; exact h2.trans hs
    have her : s1.m_table_being_erased = s.m_table_being_erased := by
      have h2 := select_table_erased s t; rw [hst] at h2; exact h2
    simp only [hst, Bool.not_true, Bool.false_eq_true, if_false]
    by_cases hob : s1.m_last_object = some key
    · rw [if_pos hob]
      simp only [ROut.bindR]
      by_cases hf : s1.m_last_field = some field
      · rw [if_pos hf]
        exact ⟨s1, _, rfl, hinstr, hext, hshort, her, rfl⟩
      · rw [if_neg hf]
        simp only [hcol]
        refine ⟨_, _, rfl, hinstr, ?_, hshort, her, rfl⟩
        exact strExt_trans hext (intern_strExt _ _)
    · rw [if_neg hob]
      obtain ⟨s2, pk, hpke, hinstr2, hext2, hbuf2, hshort2, her2, hres2, hrow⟩ :=
        pk_ok s1 t key o hc hshort ho hpk
      rw [hpke]
      simp only [ROut.bindR]
      by_cases hf : s2.m_last_field = some field
      · rw [if_pos hf]
        exact ⟨_, _, rfl, hinstr2.trans hinstr, strExt_trans hext hext2, hshort2,
          her2.trans her, rfl⟩
      · rw [if_neg hf]
        simp only [hcol]
        refine ⟨_, _, rfl, hinstr2.trans hinstr, ?_, hshort2, her2.trans her, rfl⟩
        exact strExt_trans (strExt_trans hext hext2) (intern_strExt _ _)

/-- The non-embedded branch of `populate_path_instr`. -/
theorem populate_path_instr_top (db : Database) (s : SyncState) (t : Table)
    (key : ObjKey) (field fuel : Nat) (hemb : t.embedded = false) :
    populate_path_instr db s t key field fuel = populate_top s t key field {} := by
  unfold populate_path_instr
  rw [if_neg (by simp [hemb])]

/-- Path population for a collection element of a non-embedded table:
success, untouched changeset, and path `[index ndx]`. -/
theorem populate_ndx_ok (db : Database) (s : SyncState) (view : Collection)
    (ndx fuel : Nat) (o : ObjRec) (fcol : Column)
    (hc : beginsWithClass view.table.name = true)
    (hs : s.m_short_circuit = false)
    (hemb : view.table.embedded = false)
    (ho : view.table.get_object view.objKey = some o)
    (hpk : PKOk view.table o)
    (hcol : view.table.getColumn view.colKey = some fcol) :
    ∃ s' instr, populate_path_instr_ndx db s view ndx fuel = .ok s' instr ∧
      s'.instrs = s.instrs ∧ StrExt s.encoder s'.encoder ∧
      s'.m_short_circuit = false ∧
      s'.m_table_being_erased = s.m_table_being_erased ∧
      instr.path = [.index ndx] := by
  unfold populate_path_instr_ndx populate_path_instr_col
  rw [populate_path_instr_top db s view.table view.objKey view.colKey fuel hemb]
  obtain ⟨s', instr, he, h1, h2, h3, h4, h5⟩ :=
    populate_top_ok s view.table view.objKey view.colKey {} o fcol hc hs ho hpk hcol
  rw [he]
  simp only [ROut.bindR]
  exact ⟨s', _, rfl, h1, h2, h3, h4, by simp [h5]⟩

end RealmSync

namespace RealmSync

/-- Path population for a collection of a non-embedded table (no element
index): success, untouched changeset, empty tail path. -/
theorem populate_col_ok (db : Database) (s : SyncState) (view : Collection)
    (fuel : Nat) (o : ObjRec) (fcol : Column)
    (hc : beginsWithClass view.table.name = true)
    (hs : s.m_short_circuit = false)
    (hemb : view.table.embedded = false)
    (ho : view.table.get_object view.objKey = some o)
    (hpk : PKOk view.table o)
    (hcol : view.table.getColumn view.colKey = some fcol) :
    ∃ s' instr, populate_path_instr_col db s view fuel = .ok s' instr ∧
      s'.instrs = s.instrs ∧ StrExt s.encoder s'.encoder ∧
      s'.m_short_circuit = false ∧
      s'.m_table_being_erased = s.m_table_being_erased ∧
      instr.path = [] := by
  unfold populate_path_instr_col
  rw [populate_path_instr_top db s view.table view.objKey view.colKey fuel hemb]
  obtain ⟨s', instr, he, h1, h2, h3, h4, h5⟩ :=
    populate_top_ok s view.table view.objKey view.colKey {} o fcol hc hs ho hpk hcol
  exact ⟨s', instr, he, h1, h2, h3, h4, h5⟩

/-- C7: on a selectable (replicated, non-embedded, resolvable) collection,
a list-insert emits exactly one `ArrayInsert` and a list-erase exactly one
`ArrayErase`, each carrying the collection's size at callback time — the
size immediately before the mutation took effect — as `prior_size`. -/
theorem prior_size_faithful (db : Database) (s : SyncState) (view : Collection)
    (ndx : Nat) (value : Mixed) (fuel : Nat) (o : ObjRec) (fcol : Column)
    (hc : beginsWithClass view.table.name = true)
    (hs : s.m_short_circuit = false)
    (hemb : view.table.embedded = false)
    (ho : view.table.get_object view.objKey = some o)
    (hpk : PKOk view.table o)
    (hcol : view.table.getColumn view.colKey = some fcol)
    (hval : PayloadOk db view.table view.colKey value) :
    (∃ s1 i1 p1, list_insert db s view ndx value fuel = .ok s1 () ∧
      s1.instrs = s.instrs ++ [.arrayInsert i1 p1 view.size]) ∧
    (∃ s2 i2, list_erase db s view ndx fuel = .ok s2 () ∧
      s2.instrs = s.instrs ++ [.arrayErase i2 view.size]) := by
  constructor
  · unfold list_insert select_collection
    cases hst : select_table s view.table with
    | mk s1 sel =>
      have hsel : sel = true := by
        have h2 := select_table_true s view.table hc hs
        rw [hst] at h2; exact h2
      subst hsel
      have hinstr : s1.instrs = s.instrs := by
        have h2 := select_table_instrs s view.table; rw [hst] at h2; exact h2
      have hshort : s1.m_short_circuit = false := by
        have h2 := select_table_short s view.table; rw [hst] at h2
        exact h2.trans hs
      simp only [hst, if_true]
      obtain ⟨s2, instr, he, h1, h2, h3, h4, h5⟩ :=
        populate_ndx_ok db s1 view ndx fuel o fcol hc hshort hemb ho hpk hcol
      rw [he]
      simp only [ROut.bindR]
      unfold as_payload_col
      obtain ⟨s3, pay, hp, hp1, hp2, hp3, hp4⟩ :=
        as_payload_ok db s2 view.table view.colKey value h3 hval
      rw [hp]
      simp only [ROut.bindR]
      refine ⟨_, instr, pay, rfl, ?_⟩
      simp [SyncState.emit, hp1, h1, hinstr]
  · unfold list_erase select_collection
    cases hst : select_table s view.table with
    | mk s1 sel =>
      have hsel : sel = true := by
        have h2 := select_table_true s view.table hc hs
        rw [hst] at h2; exact h2
      subst hsel
      have hinstr : s1.instrs = s.instrs := by
        have h2 := select_table_instrs s view.table; rw [hst] at h2; exact h2
      have hshort : s1.m_short_circuit = false := by
        have h2 := select_table_short s view.table; rw [hst] at h2
        exact h2.trans hs
      simp only [hst, if_true]
      obtain ⟨s2, instr, he, h1, h2, h3, h4, h5⟩ :=
        populate_ndx_ok db s1 view ndx fuel o fcol hc hshort hemb ho hpk hcol
      rw [he]
      simp only [ROut.bindR]
      refine ⟨_, instr, rfl, ?_⟩
      simp [SyncState.emit, h1, hinstr]

/-- C7 witness: inserting and erasing on `class_Top.items` (size 4 at
callback time) emits instructions with `prior_size = 4`. -/
theorem prior_size_faithful_witness :
    (∃ s1 i1 p1, list_insert db0 initSt viewItems 1 (.int 9) 8 = .ok s1 () ∧
      s1.instrs = initSt.instrs ++ [.arrayInsert i1 p1 viewItems.size]) ∧
    (∃ s2 i2, list_erase db0 initSt viewItems 1 8 = .ok s2 () ∧
      s2.instrs = initSt.instrs ++ [.arrayErase i2 viewItems.size]) :=
  prior_size_faithful db0 initSt viewItems 1 (.int 9) 8
    { key := ⟨1, false⟩, fields := [(10, .int 1)], globalKey := 101 }
    ⟨11, "items", .type_LinkList, false, true, false, .type_Int, some 2⟩
    rfl rfl rfl rfl
    ⟨⟨10, "_id", .type_Int, false, false, false, .type_Int, none⟩, rfl,
      Or.inr (Or.inl ⟨⟨1, rfl⟩, rfl⟩)⟩
    rfl trivial

end RealmSync

namespace RealmSync

/-- C5 (amended): on a selectable (replicated, non-embedded, resolvable)
collection, a dictionary insert or erase with a non-string key fails a
fatal assertion rather than raising `UnsupportedInstruction`; with a string
key it interns the key and appends it as the leaf path component of the one
emitted instruction. -/
theorem dictionary_key_handling (db : Database) (s : SyncState)
    (view : Collection) (key val : Mixed) (fuel : Nat) (o : ObjRec)
    (fcol : Column)
    (hc : beginsWithClass view.table.name = true)
    (hs : s.m_short_circuit = false)
    (hemb : view.table.embedded = false)
    (ho : view.table.get_object view.objKey = some o)
    (hpk : PKOk view.table o)
    (hcol : view.table.getColumn view.colKey = some fcol)
    (hval : PayloadOk db view.table view.colKey val) :
    ((∀ kv, key ≠ .str kv) →
      dictionary_insert db s view key val fuel = .invariant ∧
      dictionary_erase db s view key fuel = .invariant) ∧
    (∀ kv, key = .str kv →
      (∃ s' instr pay, dictionary_insert db s view key val fuel = .ok s' () ∧
        s'.instrs = s.instrs ++ [.dictionaryInsert instr pay] ∧
        ∃ h, instr.path.getLast? = some (.field h) ∧
          s'.encoder.decode h = some kv) ∧
      (∃ s' instr, dictionary_erase db s view key fuel = .ok s' () ∧
        s'.instrs = s.instrs ++ [.dictionaryErase instr] ∧
        ∃ h, instr.path.getLast? = some (.field h) ∧
          s'.encoder.decode h = some kv)) := by
  cases hst : select_table s view.table with
  | mk s1 sel =>
    have hsel : sel = true := by
      have h2 := select_table_true s view.table hc hs
      rw [hst] at h2; exact h2
    subst hsel
    have hinstr : s1.instrs = s.instrs := by
      have h2 := select_table_instrs s view.table; rw [hst] at h2; exact h2
    have hshort : s1.m_short_circuit = false := by
      have h2 := select_table_short s view.table; rw [hst] at h2
      exact h2.trans hs
    constructor
    · intro hk
      unfold dictionary_insert dictionary_erase select_collection
      simp only [hst, if_true]
      cases key with
      | str kv => exact absurd rfl (hk kv)
      | null => exact ⟨by trivial, by trivial⟩
      | int v => exact ⟨by trivial, by trivial⟩
      | bool v => exact ⟨by trivial, by trivial⟩
      | float v => exact ⟨by trivial, by trivial⟩
      | double v => exact ⟨by trivial, by trivial⟩
      | binary v => exact ⟨by trivial, by trivial⟩
      | timestamp v => exact ⟨by trivial, by trivial⟩
      | decimal v => exact ⟨by trivial, by trivial⟩
      | objectId v => exact ⟨by trivial, by trivial⟩
      | link v => exact ⟨by trivial, by trivial⟩
      | typedLink tk v => exact ⟨by trivial, by trivial⟩
    · intro kv hkv
      subst hkv
      obtain ⟨s2, instr, he, h1, h2, h3, h4, h5⟩ :=
        populate_col_ok db s1 view fuel o fcol hc hshort hemb ho hpk hcol
      constructor
      · unfold dictionary_insert select_collection
        simp only [hst, if_true]
        rw [he]
        simp only [ROut.bindR]
        unfold as_payload_col
        obtain ⟨s3, pay, hp, hp1, hp2, hp3, hp4⟩ :=
          as_payload_ok db { s2 with encoder := (s2.encoder.intern kv).1 }
            view.table view.colKey val h3 hval
        rw [hp]
        simp only [ROut.bindR]
        refine ⟨_,
          { instr with path := instr.path ++ [.field (s2.encoder.intern kv).2] },
          pay, rfl, ?_, (s2.encoder.intern kv).2, ?_, ?_⟩
        · simp [SyncState.emit, hp1, h1, hinstr]
        · simp [h5]
        · exact decode_mono hp2 (intern_decode_self _ _)
      · unfold dictionary_erase select_collection
        simp only [hst, if_true]
        rw [he]
        simp only [ROut.bindR]
        refine ⟨_,
          { instr with path := instr.path ++ [.field (s2.encoder.intern kv).2] },
          rfl, ?_, (s2.encoder.intern kv).2, ?_, ?_⟩
        · simp [SyncState.emit, h1, hinstr]
        · simp [h5]
        · exact intern_decode_self _ _

/-- C5 witness: a string-keyed dictionary insert/erase on `class_D.dict`
appends the interned key `"k"` as the leaf path component, and an
integer-keyed one is a fatal assertion. -/
theorem dictionary_key_handling_witness :
    ((∀ kv, (Mixed.int 7) ≠ .str kv) →
      dictionary_insert db0 initSt viewDict (.int 7) (.int 1) 8 = .invariant ∧
      dictionary_erase db0 initSt viewDict (.int 7) 8 = .invariant) ∧
    (∀ kv, (Mixed.int 7) = .str kv →
      (∃ s' instr pay, dictionary_insert db0 initSt viewDict (.int 7) (.int 1) 8 = .ok s' () ∧
        s'.instrs = initSt.instrs ++ [.dictionaryInsert instr pay] ∧
        ∃ h, instr.path.getLast? = some (.field h) ∧
          s'.encoder.decode h = some kv) ∧
      (∃ s' instr, dictionary_erase db0 initSt viewDict (.int 7) 8 = .ok s' () ∧
        s'.instrs = initSt.instrs ++ [.dictionaryErase instr] ∧
        ∃ h, instr.path.getLast? = some (.field h) ∧
          s'.encoder.decode h = some kv)) :=
  dictionary_key_handling db0 initSt viewDict (.int 7) (.int 1) 8
    { key := ⟨1, false⟩, fields := [], globalKey := 501 }
    ⟨50, "dict", .type_Mixed, true, false, true, .type_Int, none⟩
    rfl rfl rfl rfl trivial rfl trivial

end RealmSync

namespace RealmSync

/-- C4 (amended): every mutation callback other than table/column rename,
invoked on a non-embedded, non-replicated table (name not beginning with
`class_`, not held in the table cache), returns normally with the state —
and hence the changeset — unchanged; erasing a non-replicated group-level
table only drops the cached table pointer and emits nothing.  (Renames
raise `UnsupportedInstruction` even for such tables, and object creation on
embedded tables raises regardless of the name.) -/
theorem non_replicated_mutations_silent (db : Database) (s : SyncState)
    (t : Table)
    (hname : beginsWithClass t.name = false)
    (hlast : s.m_last_table ≠ some t.key)
    (hemb : t.embedded = false) :
    (∀ oid, create_object s t oid = .ok s ()) ∧
    (∀ v, create_object_with_primary_key s t v = .ok s ()) ∧
    (∀ col key v variant fuel, set db s t col key v variant fuel = .ok s ()) ∧
    (∀ col key v fuel, add_int db s t col key v fuel = .ok s ()) ∧
    (∀ key, key.unresolved = false → remove_object s t key = .ok s ()) ∧
    (∀ col tt, insert_column s t col tt = .ok s ()) ∧
    (∀ c, erase_column s t c = .ok s ()) ∧
    (∀ col key fuel, nullify_link db s t col key fuel = .ok s ()) ∧
    (∀ view : Collection, beginsWithClass view.table.name = false →
      s.m_last_table ≠ some view.table.key →
      (∀ ndx v fuel, list_set db s view ndx v fuel = .ok s ()) ∧
      (∀ ndx v fuel, list_insert db s view ndx v fuel = .ok s ()) ∧
      (∀ ndx fuel, list_erase db s view ndx fuel = .ok s ()) ∧
      (∀ a b fuel, list_move db s view a b fuel = .ok s ()) ∧
      (∀ fuel, list_clear db s view fuel = .ok s ()) ∧
      (∀ k v fuel, dictionary_insert db s view k v fuel = .ok s ()) ∧
      (∀ k fuel, dictionary_erase db s view k fuel = .ok s ()) ∧
      (∀ ndx fuel, link_list_nullify db s view ndx fuel = .ok s ())) ∧
    (∀ name emb, beginsWithClass name = false → add_class s name emb = .ok s ()) ∧
    (∀ name ty f n, beginsWithClass name = false →
      add_class_with_primary_key s name ty f n = .ok s ()) ∧
    (∀ tk, db.getTable tk = some t →
      ∃ s', erase_group_level_table db s tk = .ok s' () ∧ s'.instrs = s.instrs) := by
  have hsel := select_table_false s t hname hlast
  refine ⟨?_, ?_, ?_, ?_, ?_, ?_, ?_, ?_, ?_, ?_, ?_, ?_⟩
  · intro oid
    unfold create_object
    rw [if_neg (by simp [hemb])]
    simp [hsel]
  · intro v
    unfold create_object_with_primary_key
    rw [if_neg (by simp [hemb])]
    simp [hsel]
  · intro col key v variant fuel
    unfold set
    by_cases hu : isUnresolvedLink v = true
    · rw [if_pos hu]
    · rw [if_neg hu]
      simp [hsel]
  · intro col key v fuel
    unfold add_int
    simp [hsel]
  · intro key hk
    unfold remove_object
    rw [if_neg (by simp [hemb]), if_neg (by simp [hk])]
    simp [hsel]
  · intro col tt
    unfold insert_column
    simp [hsel]
  · intro c
    unfold erase_column
    simp [hsel]
  · intro col key fuel
    unfold nullify_link
    simp [hsel]
  · intro view hvn hvl
    have hv := select_table_false s view.table hvn hvl
    refine ⟨?_, ?_, ?_, ?_, ?_, ?_, ?_, ?_⟩
    · intro ndx v fuel
      unfold list_set select_collection
      by_cases hu : isUnresolvedLink v = true
      · rw [if_pos hu]
      · rw [if_neg hu]
        simp [hv]
    · intro ndx v fuel
      unfold list_insert select_collection
      simp [hv]
    · intro ndx fuel
      unfold list_erase select_collection
      simp [hv]
    · intro a b fuel
      unfold list_move select_collection
      simp [hv]
    · intro fuel
      unfold list_clear select_collection
      simp [hv]
    · intro k v fuel
      unfold dictionary_insert select_collection
      simp [hv]
    · intro k fuel
      unfold dictionary_erase select_collection
      simp [hv]
    · intro ndx fuel
      unfold link_list_nullify select_collection
      simp [hv]
  · intro name emb h
    unfold add_class
    simp [h]
  · intro name ty f n h
    unfold add_class_with_primary_key
    simp [h]
  · intro tk hdb
    unfold erase_group_level_table
    simp only [hdb]
    rw [if_neg (by simp [hname])]
    exact ⟨_, rfl, rfl⟩

/-- C4 witness: concrete silent mutations on the internal table `pk`. -/
theorem non_replicated_mutations_silent_witness :
    create_object initSt tNonRep 9 = .ok initSt () ∧
    set db0 initSt tNonRep 70 ⟨1, false⟩ (.int 3) .instr_Set 8 = .ok initSt () ∧
    erase_column initSt tNonRep 70 = .ok initSt () ∧
    (∃ s', erase_group_level_table db0 initSt 7 = .ok s' () ∧
      s'.instrs = initSt.instrs) :=
  ⟨(non_replicated_mutations_silent db0 initSt tNonRep rfl (by decide) rfl).1 9,
   (non_replicated_mutations_silent db0 initSt tNonRep rfl (by decide) rfl).2.2.1
     70 ⟨1, false⟩ (.int 3) .instr_Set 8,
   (non_replicated_mutations_silent db0 initSt tNonRep rfl (by decide) rfl).2.2.2.2.2.2.1 70,
   (non_replicated_mutations_silent db0 initSt tNonRep rfl (by decide) rfl).2.2.2.2.2.2.2.2.2.2.2 7 rfl⟩

end RealmSync

namespace RealmSync

/-- C9: while `prepare_erase_table(name)` is pending, every `erase_column`
on the table with that name emits no `EraseColumn`; the matching
`erase_group_level_table` then emits exactly one `EraseTable` and clears
the pending bracket. -/
theorem erase_table_suppresses_column_erases (db : Database) (s : SyncState)
    (t : Table) (c tk : Nat)
    (hprep : s.m_table_being_erased = t.name)
    (hc : beginsWithClass t.name = true)
    (hs : s.m_short_circuit = false)
    (hdb : db.getTable tk = some t) :
    (∃ s', erase_column s t c = .ok s' () ∧ s'.instrs = s.instrs) ∧
    (∃ s' h, erase_group_level_table db s tk = .ok s' () ∧
      s'.instrs = s.instrs ++ [.eraseTable h] ∧
      s'.m_table_being_erased = "") := by
  constructor
  · unfold erase_column
    cases hst : select_table s t with
    | mk s1 sel =>
      have hsel : sel = true := by
        have h2 := select_table_true s t hc hs
        rw [hst] at h2; exact h2
      subst hsel
      have hinstr : s1.instrs = s.instrs := by
        have h2 := select_table_instrs s t; rw [hst] at h2; exact h2
      have her : s1.m_table_being_erased = s.m_table_being_erased := by
        have h2 := select_table_erased s t; rw [hst] at h2; exact h2
      simp only [hst, if_true]
      rw [if_pos (by rw [her, hprep])]
      exact ⟨s1, rfl, hinstr⟩
  · unfold erase_group_level_table
    simp only [hdb]
    rw [if_pos hc, if_pos hprep.symm]
    rw [if_pos (by simp [hs])]
    unfold emit_class_name
    exact ⟨_, _, rfl, rfl, rfl⟩

/-- C9 witness: with `class_Top` marked as being erased, a concrete column
erase is suppressed and the table erase emits one `EraseTable`. -/
theorem erase_table_suppresses_column_erases_witness :
    (∃ s', erase_column { initSt with m_table_being_erased := "class_Top" } tTop 11 = .ok s' () ∧
      s'.instrs = initSt.instrs) ∧
    (∃ s' h, erase_group_level_table db0
        { initSt with m_table_being_erased := "class_Top" } 1 = .ok s' () ∧
      s'.instrs = initSt.instrs ++ [.eraseTable h] ∧
      s'.m_table_being_erased = "") :=
  erase_table_suppresses_column_erases db0
    { initSt with m_table_being_erased := "class_Top" } tTop 11 1 rfl rfl rfl rfl

end RealmSync

namespace RealmSync

theorem is_null_eq {v : Mixed} (h : v.is_null = true) : v = .null := by
  cases v <;> simp [Mixed.is_null] at h ⊢

/-- C2 (amended): on a replicated, non-embedded table,
`create_object_with_primary_key` emits exactly one `CreateObject` with the
translated identity when the value is null on a nullable declared
primary-key column or non-null of exactly the column's declared
(protocol-supported) key type; a missing primary-key column or a non-null
value of the wrong type raises `UnsupportedInstruction` with the changeset
unchanged; a null value on a *non-nullable* primary-key column fails the
fatal `Mixed::get_type()` null assertion instead of raising
`UnsupportedInstruction`. -/
theorem create_object_with_pk_cases (s : SyncState) (t : Table) (value : Mixed)
    (hc : beginsWithClass t.name = true)
    (hs : s.m_short_circuit = false)
    (hemb : t.embedded = false) :
    (t.pkCol = none →
      ∃ s', create_object_with_primary_key s t value = .unsupported s' ∧
        s'.instrs = s.instrs) ∧
    (∀ pkc col, t.pkCol = some pkc → t.getColumn pkc = some col →
      ((value.is_null = true → col.nullable = true →
         ∃ s' cn, create_object_with_primary_key s t value = .ok s' () ∧
           s'.instrs = s.instrs ++ [.createObject cn .null]) ∧
       (value.is_null = true → col.nullable = false →
         create_object_with_primary_key s t value = .invariant) ∧
       (value.is_null = false → col.dtype = value.get_type →
         isKeyDType col.dtype = true →
         ∃ s' cn pk, create_object_with_primary_key s t value = .ok s' () ∧
           s'.instrs = s.instrs ++ [.createObject cn pk] ∧
           TranslatedPK s'.encoder value pk) ∧
       (value.is_null = false → ¬ col.dtype = value.get_type →
         ∃ s', create_object_with_primary_key s t value = .unsupported s' ∧
           s'.instrs = s.instrs))) := by
  unfold create_object_with_primary_key
  rw [if_neg (by simp [hemb])]
  cases hst : select_table s t with
  | mk s1 sel =>
    have hsel : sel = true := by
      have h2 := select_table_true s t hc hs
      rw [hst] at h2; exact h2
    subst hsel
    have hinstr : s1.instrs = s.instrs := by
      have h2 := select_table_instrs s t; rw [hst] at h2; exact h2
    simp only [hst, if_true]
    constructor
    · intro hpkc
      simp only [hpkc]
      exact ⟨s1, rfl, hinstr⟩
    · intro pkc col hpkc hcolm
      simp only [hpkc, hcolm]
      refine ⟨?_, ?_, ?_, ?_⟩
      · intro hnull hnullable
        rw [if_pos hnull, if_pos hnullable]
        rw [is_null_eq hnull]
        exact ⟨_, s1.m_last_class_name.getD 0, rfl, by simp [SyncState.emit, hinstr]⟩
      · intro hnull hnonnullable
        rw [if_pos hnull, if_neg (by simp [hnonnullable])]
      · intro hnonnull hd hkey
        rw [if_neg (by simp [hnonnull]), if_pos hd]
        cases value with
        | null => simp [Mixed.is_null] at hnonnull
        | int v =>
            exact ⟨_, s1.m_last_class_name.getD 0, .int v, rfl,
              by simp [SyncState.emit, hinstr], rfl⟩
        | str v =>
            have hap : as_primary_key s1 (.str v) =
                .ok { s1 with encoder := (s1.encoder.intern v).1 }
                  (.interned (s1.encoder.intern v).2) := rfl
            rw [hap]
            simp only [ROut.bindR]
            refine ⟨_, s1.m_last_class_name.getD 0, .interned (s1.encoder.intern v).2,
              rfl, by simp [SyncState.emit, hinstr], ?_⟩
            exact ⟨_, rfl, intern_decode_self _ _⟩
        | objectId v =>
            exact ⟨_, s1.m_last_class_name.getD 0, .objectId v, rfl,
              by simp [SyncState.emit, hinstr], rfl⟩
        | bool v => rw [hd] at hkey; simp [Mixed.get_type, isKeyDType] at hkey
        | float v => rw [hd] at hkey; simp [Mixed.get_type, isKeyDType] at hkey
        | double v => rw [hd] at hkey; simp [Mixed.get_type, isKeyDType] at hkey
        | binary v => rw [hd] at hkey; simp [Mixed.get_type, isKeyDType] at hkey
        | timestamp v => rw [hd] at hkey; simp [Mixed.get_type, isKeyDType] at hkey
        | decimal v => rw [hd] at hkey; simp [Mixed.get_type, isKeyDType] at hkey
        | link v => rw [hd] at hkey; simp [Mixed.get_type, isKeyDType] at hkey
        | typedLink tk v => rw [hd] at hkey; simp [Mixed.get_type, isKeyDType] at hkey
      · intro hnonnull hd
        rw [if_neg (by simp [hnonnull]), if_neg hd]
        exact ⟨s1, rfl, hinstr⟩

/-- C2 witness: concrete creations on `class_P` (non-nullable Int64 primary
key): a matching Int64 value emits one `CreateObject`; a String value is
`UnsupportedInstruction`. -/
theorem create_object_with_pk_cases_witness :
    (∃ s' cn pk, create_object_with_primary_key initSt tPkInt (.int 42) = .ok s' () ∧
      s'.instrs = initSt.instrs ++ [.createObject cn pk] ∧
      TranslatedPK s'.encoder (.int 42) pk) ∧
    (∃ s', create_object_with_primary_key initSt tPkInt (.str "x") = .unsupported s' ∧
      s'.instrs = initSt.instrs) :=
  ⟨((create_object_with_pk_cases initSt tPkInt (.int 42) rfl rfl rfl).2 60
      ⟨60, "_id", .type_Int, false, false, false, .type_Int, none⟩ rfl rfl).2.2.1
      rfl rfl rfl,
   ((create_object_with_pk_cases initSt tPkInt (.str "x") rfl rfl rfl).2 60
      ⟨60, "_id", .type_Int, false, false, false, .type_Int, none⟩ rfl rfl).2.2.2
      rfl (by decide)⟩

end RealmSync

namespace RealmSync

/-- Selecting the cached table is a no-op returning true. -/
theorem select_table_cached (s : SyncState) (t : Table)
    (hs : s.m_short_circuit = false)
    (hlast : s.m_last_table = some t.key) :
    select_table s t = (s, true) := by
  unfold select_table
  rw [if_neg (by simp [hs]), if_pos hlast]

/-- `primary_key_for_object` on the already-selected table: the selection
cache is untouched, the changeset is untouched, only the resolve counter
(and, for string keys, the interning table) changes, and the returned
identity is the row's translated primary key. -/
theorem pk_cached (s : SyncState) (t : Table) (key : ObjKey) (o : ObjRec)
    (hs : s.m_short_circuit = false)
    (hlast : s.m_last_table = some t.key)
    (ho : t.get_object key = some o) (hpk : PKOk t o) :
    ∃ s' pk, primary_key_for_object s t key = .ok s' pk ∧
      s'.instrs = s.instrs ∧ StrExt s.encoder s'.encoder ∧
      s'.encoder.buffer = s.encoder.buffer ∧
      RowPK s'.encoder t o pk ∧
      s'.m_last_table = s.m_last_table ∧
      s'.m_last_object = s.m_last_object ∧
      s'.m_last_field = s.m_last_field ∧
      s'.m_last_field_name = s.m_last_field_name ∧
      s'.m_last_class_name = s.m_last_class_name ∧
      s'.m_last_primary_key = s.m_last_primary_key ∧
      s'.m_short_circuit = false ∧
      s'.m_table_being_erased = s.m_table_being_erased ∧
      s'.resolves = s.resolves + 1 := by
  unfold primary_key_for_object
  have hsel : select_table { s with resolves := s.resolves + 1 } t =
      ({ s with resolves := s.resolves + 1 }, true) :=
    select_table_cached _ t hs hlast
  simp only [hsel, Bool.not_true, Bool.false_eq_true, if_false]
  cases hpkc : t.pkCol with
  | none =>
      simp only [ho]
      refine ⟨_, .globalKey o.globalKey, rfl, rfl, strExt_refl _, rfl, ?_,
        rfl, rfl, rfl, rfl, rfl, rfl, hs, rfl, rfl⟩
      unfold RowPK
      rw [hpkc]
  | some pkc =>
      unfold PKOk at hpk
      rw [hpkc] at hpk
      obtain ⟨col, hcol, hval⟩ := hpk
      simp only [hcol, ho]
      rcases hval with hnull | ⟨⟨v, hv⟩, hd⟩ | ⟨⟨v, hv⟩, hd⟩ | ⟨⟨v, hv⟩, hd⟩
      · rw [if_pos hnull]
        refine ⟨_, .null, rfl, rfl, strExt_refl _, rfl, ?_, rfl, rfl, rfl,
          rfl, rfl, rfl, hs, rfl, rfl⟩
        unfold RowPK
        rw [hpkc]
        exact Or.inl ⟨hnull, rfl⟩
      · rw [if_neg (by rw [hv]; simp [Mixed.is_null]), if_pos hd, hv]
        refine ⟨_, .int v, rfl, rfl, strExt_refl _, rfl, ?_, rfl, rfl, rfl,
          rfl, rfl, rfl, hs, rfl, rfl⟩
        unfold RowPK
        rw [hpkc]
        exact Or.inr (Or.inl ⟨v, hv, rfl⟩)
      · rw [if_neg (by rw [hv]; simp [Mixed.is_null])]
        rw [if_neg (by rw [hd]; simp), if_pos hd, hv]
        refine ⟨_, .interned ((s.encoder.intern v).2), rfl, rfl,
          intern_strExt _ _, intern_buffer _ _, ?_, rfl, rfl, rfl, rfl, rfl,
          rfl, hs, rfl, rfl⟩
        unfold RowPK
        rw [hpkc]
        exact Or.inr (Or.inr (Or.inl ⟨v, hv, _, rfl, intern_decode_self _ _⟩))
      · rw [if_neg (by rw [hv]; simp [Mixed.is_null])]
        rw [if_neg (by rw [hd]; simp), if_neg (by rw [hd]; simp), if_pos hd, hv]
        refine ⟨_, .objectId v, rfl, rfl, strExt_refl _, rfl, ?_, rfl, rfl,
          rfl, rfl, rfl, rfl, hs, rfl, rfl⟩
        unfold RowPK
        rw [hpkc]
        exact Or.inr (Or.inr (Or.inr ⟨v, hv, rfl⟩))

end RealmSync

namespace RealmSync

/-- Translated identities survive interning-table growth. -/
theorem RowPK_mono {e e' : Encoder} (hx : StrExt e e') {t : Table}
    {o : ObjRec} {pk : PrimaryKey} (h : RowPK e t o pk) : RowPK e' t o pk := by
  unfold RowPK at *
  cases hpkc : t.pkCol with
  | none => rw [hpkc] at h; exact h
  | some pkc =>
      rw [hpkc] at h
      rcases h with h | h | ⟨v, hv, hh, hpk2, hdec⟩ | h
      · exact Or.inl h
      · exact Or.inr (Or.inl h)
      · exact Or.inr (Or.inr (Or.inl ⟨v, hv, hh, hpk2, decode_mono hx hdec⟩))
      · exact Or.inr (Or.inr (Or.inr h))

/-- `populate_top` on the already-selected table with empty object/field
caches: full characterisation of the produced headers and cache update. -/
theorem populate_top_selected (s : SyncState) (t : Table) (key : ObjKey)
    (field : Nat) (instr0 : PathInstr) (o : ObjRec) (fcol : Column)
    (hs : s.m_short_circuit = false)
    (hlast : s.m_last_table = some t.key)
    (hob : s.m_last_object = none)
    (hf : s.m_last_field = none)
    (ho : t.get_object key = some o) (hpk : PKOk t o)
    (hcol : t.getColumn field = some fcol) :
    ∃ s' instr, populate_top s t key field instr0 = .ok s' instr ∧
      s'.instrs = s.instrs ∧ StrExt s.encoder s'.encoder ∧
      instr.table = s.m_last_class_name.getD 0 ∧
      RowPK s'.encoder t o instr.object ∧
      s'.encoder.decode instr.field = some fcol.name ∧
      instr.path = instr0.path ∧
      s'.m_last_table = some t.key ∧
      s'.m_last_object = some key ∧
      s'.m_last_primary_key = some instr.object ∧
      s'.m_last_field = some field ∧
      s'.m_last_field_name = some instr.field ∧
      s'.m_last_class_name = s.m_last_class_name ∧
      s'.m_short_circuit = false ∧
      s'.m_table_being_erased = s.m_table_being_erased ∧
      s'.resolves = s.resolves + 1 := by
  unfold populate_top
  rw [select_table_cached s t hs hlast]
  simp only [Bool.not_true, Bool.false_eq_true, if_false]
  rw [if_neg (by simp [hob])]
  obtain ⟨s2, pk, hpke, h1, h2, h3, hrow, h4, h5, h6, h7, h8, h9, h10, h11, h12⟩ :=
    pk_cached s t key o hs hlast ho hpk
  rw [hpke]
  simp only [ROut.bindR]
  rw [if_neg (by simp [h6, hf])]
  simp only [hcol]
  refine ⟨_, _, rfl, h1, strExt_trans h2 (intern_strExt _ _), rfl, ?_, ?_,
    rfl, h4.trans hlast, rfl, rfl, rfl, rfl, h8, h10, h11, h12⟩
  · exact RowPK_mono (intern_strExt _ _) hrow
  · exact intern_decode_self _ _

/-- Re-running `populate_top` from the state its own selection produced is
the same computation. -/
theorem populate_top_reselect (s s1 : SyncState) (t : Table) (key : ObjKey)
    (field : Nat) (instr0 : PathInstr)
    (hst : select_table s t = (s1, true))
    (hst1 : select_table s1 t = (s1, true)) :
    populate_top s t key field instr0 = populate_top s1 t key field instr0 := by
  unfold populate_top
  rw [hst, hst1]

/-- `populate_top` that switches the selection to a new replicated table:
the instruction headers are all freshly resolved against that table. -/
theorem populate_top_switch (s : SyncState) (t : Table) (key : ObjKey)
    (field : Nat) (instr0 : PathInstr) (o : ObjRec) (fcol : Column)
    (hc : beginsWithClass t.name = true)
    (hs : s.m_short_circuit = false)
    (hdiff : s.m_last_table ≠ some t.key)
    (ho : t.get_object key = some o) (hpk : PKOk t o)
    (hcol : t.getColumn field = some fcol) :
    ∃ s' instr, populate_top s t key field instr0 = .ok s' instr ∧
      s'.instrs = s.instrs ∧ StrExt s.encoder s'.encoder ∧
      s'.encoder.decode instr.table = some (table_name_to_class_name t.name) ∧
      RowPK s'.encoder t o instr.object ∧
      s'.encoder.decode instr.field = some fcol.name ∧
      instr.path = instr0.path ∧
      s'.m_last_table = some t.key ∧
      s'.m_last_object = some key ∧
      s'.m_last_primary_key = some instr.object ∧
      s'.m_last_field = some field ∧
      s'.m_last_field_name = some instr.field ∧
      s'.m_last_class_name = some instr.table ∧
      s'.m_short_circuit = false ∧
      s'.m_table_being_erased = s.m_table_being_erased ∧
      s'.resolves = s.resolves + 1 := by
  have hfr := select_table_fresh s t hc hs hdiff
  set s1 : SyncState :=
    { s with
        encoder := (s.encoder.intern (table_name_to_class_name t.name)).1
        m_last_class_name := some (s.encoder.intern (table_name_to_class_name t.name)).2
        m_last_table := some t.key
        m_last_field := none
        m_last_object := none
        m_last_primary_key := none } with hs1
  have hst1 : select_table s1 t = (s1, true) :=
    select_table_cached s1 t (by simp [hs1, hs]) (by simp [hs1])
  rw [populate_top_reselect s s1 t key field instr0 hfr hst1]
  obtain ⟨s', instr, he, h1, h2, h3, hrow, hdec, h4, h5, h6, h7, h8, h9, h10,
    h11, h12, h13⟩ :=
    populate_top_selected s1 t key field instr0 o fcol (by simp [hs1, hs])
      (by simp [hs1]) (by simp [hs1]) (by simp [hs1]) ho hpk hcol
  refine ⟨s', instr, he, h1, strExt_trans (intern_strExt _ _) h2, ?_, hrow,
    hdec, h4, h5, h6, h7, h8, h9, ?_, h11, by simpa [hs1] using h12, h13⟩
  · rw [h3]
    simp only [hs1]
    exact decode_mono h2 (intern_decode_self _ _)
  · rw [h10, hs1, h3]
    simp [hs1]

end RealmSync

namespace RealmSync

/-- C10 (amended): selecting a replicated table different from the cached
one clears the cached object key, primary key and field key (the cached
interned field name survives but is unreachable, because the cleared field
key guards its use) and records the new table's class name; a subsequent
path population therefore resolves the object identity and field name
freshly against the new table; and transaction start resets the entire
cache and changeset. -/
theorem select_switch_clears_cache (s : SyncState) (t : Table)
    (hc : beginsWithClass t.name = true)
    (hs : s.m_short_circuit = false)
    (hdiff : s.m_last_table ≠ some t.key) :
    ((select_table s t).2 = true ∧
     (select_table s t).1.m_last_object = none ∧
     (select_table s t).1.m_last_primary_key = none ∧
     (select_table s t).1.m_last_field = none ∧
     ∃ h, (select_table s t).1.m_last_class_name = some h ∧
       (select_table s t).1.encoder.decode h =
         some (table_name_to_class_name t.name)) ∧
    (∀ key field o fcol, t.get_object key = some o → PKOk t o →
      t.getColumn field = some fcol →
      ∃ s'' instr, populate_top (select_table s t).1 t key field {} = .ok s'' instr ∧
        s''.encoder.decode instr.field = some fcol.name ∧
        RowPK s''.encoder t o instr.object) ∧
    (∀ s0 : SyncState,
      (do_initiate_transact s0).m_last_table = none ∧
      (do_initiate_transact s0).m_last_object = none ∧
      (do_initiate_transact s0).m_last_field = none ∧
      (do_initiate_transact s0).m_last_class_name = none ∧
      (do_initiate_transact s0).m_last_field_name = none ∧
      (do_initiate_transact s0).instrs = [] ∧
      (do_initiate_transact s0).encoder = ⟨[], []⟩) := by
  have hfr := select_table_fresh s t hc hs hdiff
  refine ⟨?_, ?_, ?_⟩
  · rw [hfr]
    exact ⟨rfl, rfl, rfl, rfl, _, rfl, intern_decode_self _ _⟩
  · intro key field o fcol ho hpk hcol
    rw [hfr]
    obtain ⟨s'', instr, he, h1, h2, h3, hrow, hdec, rest⟩ :=
      populate_top_selected
        { s with
            encoder := (s.encoder.intern (table_name_to_class_name t.name)).1
            m_last_class_name := some (s.encoder.intern (table_name_to_class_name t.name)).2
            m_last_table := some t.key
            m_last_field := none
            m_last_object := none
            m_last_primary_key := none }
        t key field {} o fcol hs rfl rfl rfl ho hpk hcol
    exact ⟨s'', instr, he, hdec, hrow⟩
  · intro s0
    exact ⟨rfl, rfl, rfl, rfl, rfl, rfl, rfl⟩

/-- C10 witness: the switch behaviour at the concrete stale state. -/
theorem select_switch_clears_cache_witness :
    ((select_table staleSt tTop).2 = true ∧
     (select_table staleSt tTop).1.m_last_object = none ∧
     (select_table staleSt tTop).1.m_last_primary_key = none ∧
     (select_table staleSt tTop).1.m_last_field = none ∧
     ∃ h, (select_table staleSt tTop).1.m_last_class_name = some h ∧
       (select_table staleSt tTop).1.encoder.decode h =
         some (table_name_to_class_name tTop.name)) ∧
    (∀ key field o fcol, tTop.get_object key = some o → PKOk tTop o →
      tTop.getColumn field = some fcol →
      ∃ s'' instr, populate_top (select_table staleSt tTop).1 tTop key field {} =
          .ok s'' instr ∧
        s''.encoder.decode instr.field = some fcol.name ∧
        RowPK s''.encoder tTop o instr.object) ∧
    (∀ s0 : SyncState,
      (do_initiate_transact s0).m_last_table = none ∧
      (do_initiate_transact s0).m_last_object = none ∧
      (do_initiate_transact s0).m_last_field = none ∧
      (do_initiate_transact s0).m_last_class_name = none ∧
      (do_initiate_transact s0).m_last_field_name = none ∧
      (do_initiate_transact s0).instrs = [] ∧
      (do_initiate_transact s0).encoder = ⟨[], []⟩) :=
  select_switch_clears_cache staleSt tTop rfl rfl (by decide)

end RealmSync

namespace RealmSync

/-- A true selection always leaves the cache pointing at the selected
table. -/
theorem select_table_sets_last (s : SyncState) (t : Table) (s1 : SyncState)
    (h : select_table s t = (s1, true)) : s1.m_last_table = some t.key := by
  unfold select_table emit_class_name at h
  by_cases hsh : s.m_short_circuit = true
  · rw [if_pos hsh] at h; cases h
  · rw [if_neg hsh] at h
    by_cases hl : s.m_last_table = some t.key
    · rw [if_pos hl] at h
      cases h
      exact hl
    · rw [if_neg hl] at h
      by_cases hcn : beginsWithClass t.name = true
      · rw [if_pos hcn] at h
        cases h
        rfl
      · rw [if_neg hcn] at h; cases h

/-- Folding the traversal visitor over embedded levels: appends one decoded
field-name component per level, with an index component after list levels,
and touches neither the headers nor the changeset. -/
theorem path_visit_emb (db : Database) (rest : List ParentLink) :
    ∀ (s : SyncState) (instr : PathInstr),
      (∀ p ∈ rest, ∃ et c, db.getTable p.table = some et ∧ et.embedded = true ∧
        et.getColumn p.field = some c) →
      ∃ s' instr', path_visit db s instr rest = .ok s' instr' ∧
        s'.instrs = s.instrs ∧ StrExt s.encoder s'.encoder ∧
        s'.m_short_circuit = s.m_short_circuit ∧
        s'.m_table_being_erased = s.m_table_being_erased ∧
        instr'.table = instr.table ∧ instr'.object = instr.object ∧
        instr'.field = instr.field ∧
        ∃ comps, instr'.path = instr.path ++ comps ∧
          decodePath s'.encoder comps = some (rest.flatMap (entryNames db)) := by
  induction rest with
  | nil =>
      intro s instr hrest
      exact ⟨s, instr, rfl, rfl, strExt_refl _, rfl, rfl, rfl, rfl, rfl,
        [], by simp, rfl⟩
  | cons p rest ih =>
      intro s instr hrest
      obtain ⟨et, c, hdb, hembt, hcolp⟩ := hrest p (List.mem_cons_self p rest)
      have hrest' : ∀ q ∈ rest, ∃ et c, db.getTable q.table = some et ∧
          et.embedded = true ∧ et.getColumn q.field = some c :=
        fun q hq => hrest q (List.mem_cons_of_mem p hq)
      unfold path_visit path_visit_step
      simp only [hdb, hcolp]
      rw [if_pos hembt]
      simp only [ROut.bindR]
      set e1 := s.encoder.intern c.name with he1
      by_cases hlist : c.isList = true
      · rw [if_pos hlist]
        obtain ⟨s', instr', hvis, h1, h2, h3, h4, h5, h6, h7, comps, hpath, hdec⟩ :=
          ih { s with encoder := e1.1 }
            { instr with path := (instr.path ++ [.field e1.2]) ++ [.index p.index] }
            hrest'
        have hdese : s'.encoder.decode e1.2 = some c.name :=
          decode_mono h2 (by rw [he1]; exact intern_decode_self _ _)
        refine ⟨s', instr', hvis, h1, strExt_trans (intern_strExt _ _) h2,
          h3, h4, h5, h6, h7, .field e1.2 :: .index p.index :: comps, ?_, ?_⟩
        · rw [hpath]; simp
        · simp only [decodePath, decodeComponent, hdese, hdec]
          simp [entryNames, hdb, hcolp, hlist]
      · rw [if_neg hlist]
        obtain ⟨s', instr', hvis, h1, h2, h3, h4, h5, h6, h7, comps, hpath, hdec⟩ :=
          ih { s with encoder := e1.1 }
            { instr with path := instr.path ++ [.field e1.2] }
            hrest'
        have hdese : s'.encoder.decode e1.2 = some c.name :=
          decode_mono h2 (by rw [he1]; exact intern_decode_self _ _)
        refine ⟨s', instr', hvis, h1, strExt_trans (intern_strExt _ _) h2,
          h3, h4, h5, h6, h7, .field e1.2 :: comps, ?_, ?_⟩
        · rw [hpath]; simp
        · simp only [decodePath, decodeComponent, hdese, hdec]
          simp [entryNames, hdb, hcolp, hlist]

end RealmSync

namespace RealmSync

/-- `populate_path_instr` on an embedded row: the headers come from the
nearest non-embedded ancestor, and the decoded full path (first field plus
remaining components) is the ancestor's field, its list index when that
field is a list, one field-name component (plus index where applicable) per
further embedded level, and the leaf field name. -/
theorem populate_embedded (db : Database) (s : SyncState) (ET : Table)
    (key : ObjKey) (field fuel : Nat) (top : ParentLink)
    (rest : List ParentLink) (T : Table) (topcol : Column) (topobj : ObjRec)
    (leafcol : Column)
    (hembE : ET.embedded = true)
    (htrav : traverse_entries db ET key fuel = some (top :: rest))
    (hT : db.getTable top.table = some T)
    (hTemb : T.embedded = false)
    (hTc : beginsWithClass T.name = true)
    (hs : s.m_short_circuit = false)
    (hdiffT : s.m_last_table ≠ some T.key)
    (htopcol : T.getColumn top.field = some topcol)
    (htopobj : T.get_object top.obj = some topobj)
    (hpk : PKOk T topobj)
    (hrest : ∀ p ∈ rest, ∃ et c, db.getTable p.table = some et ∧
      et.embedded = true ∧ et.getColumn p.field = some c)
    (hleaf : ET.getColumn field = some leafcol) :
    ∃ s' instr, populate_path_instr db s ET key field fuel = .ok s' instr ∧
      s'.instrs = s.instrs ∧ StrExt s.encoder s'.encoder ∧
      s'.m_short_circuit = false ∧
      s'.m_table_being_erased = s.m_table_being_erased ∧
      s'.encoder.decode instr.table = some (table_name_to_class_name T.name) ∧
      RowPK s'.encoder T topobj instr.object ∧
      decodePath s'.encoder (.field instr.field :: instr.path) =
        some (.field topcol.name ::
          ((if topcol.isList then [.index top.index] else []) ++
           rest.flatMap (entryNames db) ++ [.field leafcol.name])) := by
  obtain ⟨s1, instr1, hpop, p1, p2, p3, p4, p5, p6, p7, p8, p9, p10, p11,
    p12, p13, p14, p15⟩ :=
    populate_top_switch s T top.obj top.field {} topobj topcol hTc hs hdiffT
      htopobj hpk htopcol
  have hstep : path_visit_step db s {} top =
      .ok s1 (if topcol.isList = true then
        { instr1 with path := instr1.path ++ [.index top.index] } else instr1) := by
    unfold path_visit_step
    simp only [hT, htopcol]
    rw [if_neg (by simp [hTemb]), hpop]
    simp only [ROut.bindR]
    by_cases hlist : topcol.isList = true
    · rw [if_pos hlist, if_pos hlist]
    · rw [if_neg hlist, if_neg hlist]
  unfold populate_path_instr
  rw [if_pos hembE]
  simp only [htrav]
  unfold path_visit
  rw [hstep]
  simp only [ROut.bindR]
  obtain ⟨s2, instr2, hvis, v1, v2, v3, v4, v5, v6, v7, comps, hcpath, hcdec⟩ :=
    path_visit_emb db rest s1
      (if topcol.isList = true then
        { instr1 with path := instr1.path ++ [.index top.index] } else instr1) hrest
  rw [hvis]
  simp only [ROut.bindR, hleaf]
  refine ⟨_, _, rfl, v1.trans p1, ?_, v3.trans p13, v4.trans p14, ?_, ?_, ?_⟩
  · exact strExt_trans p2 (strExt_trans v2 (intern_strExt _ _))
  · rw [show ({ instr2 with
        path := instr2.path ++ [.field (s2.encoder.intern leafcol.name).2] } :
          PathInstr).table = instr2.table from rfl, v5]
    have : (if topcol.isList = true then
        { instr1 with path := instr1.path ++ [.index top.index] } else instr1).table =
        instr1.table := by
      by_cases hlist : topcol.isList = true <;> simp [hlist]
    rw [this]
    exact decode_mono (strExt_trans v2 (intern_strExt _ _)) p3
  · rw [show ({ instr2 with
        path := instr2.path ++ [.field (s2.encoder.intern leafcol.name).2] } :
          PathInstr).object = instr2.object from rfl, v6]
    have : (if topcol.isList = true then
        { instr1 with path := instr1.path ++ [.index top.index] } else instr1).object =
        instr1.object := by
      by_cases hlist : topcol.isList = true <;> simp [hlist]
    rw [this]
    exact RowPK_mono (strExt_trans v2 (intern_strExt _ _)) p4
  · have hfd : ((s2.encoder.intern leafcol.name).1).decode instr1.field =
        some topcol.name :=
      decode_mono (strExt_trans v2 (intern_strExt _ _)) p5
    have hld : ((s2.encoder.intern leafcol.name).1).decode
        (s2.encoder.intern leafcol.name).2 = some leafcol.name :=
      intern_decode_self _ _
    have hcd : decodePath ((s2.encoder.intern leafcol.name).1) comps =
        some (rest.flatMap (entryNames db)) :=
      decodePath_mono (intern_strExt _ _) hcdec
    have hifld : (if topcol.isList = true then
        { instr1 with path := instr1.path ++ [.index top.index] } else instr1).field =
        instr1.field := by
      by_cases hlist : topcol.isList = true <;> simp [hlist]
    have hifpath : (if topcol.isList = true then
        { instr1 with path := instr1.path ++ [.index top.index] } else instr1).path =
        (if topcol.isList = true then [PathComponent.index top.index] else []) := by
      by_cases hlist : topcol.isList = true <;> simp [hlist, p6]
    simp only [decodePath, decodeComponent, v7, hifld, hfd, Option.map_some']
    rw [hcpath, hifpath]
    rw [decodePath_append, decodePath_append]
    simp only [decodePath, decodeComponent, hld, hcd, Option.map_some']
    by_cases hlist : topcol.isList = true <;>
      simp [hlist, decodePath, decodeComponent]

end RealmSync

namespace RealmSync

/-- C1: a field mutation on a replicated table whose target row is embedded
emits an `Update` whose table/object headers are the nearest non-embedded
ancestor's class name and resolved identity, and whose full path (first
field plus remaining components) decodes to the ancestor-to-descendant
field names — with an index component right after any level inside a list —
ending with the leaf field name. -/
theorem embedded_field_path_encoding (db : Database) (s : SyncState)
    (ET : Table) (col : Nat) (key : ObjKey) (v : Mixed) (variant : SetVariant)
    (fuel : Nat) (top : ParentLink) (rest : List ParentLink) (T : Table)
    (topcol : Column) (topobj : ObjRec) (leafcol : Column)
    (hembE : ET.embedded = true)
    (hEc : beginsWithClass ET.name = true)
    (hs : s.m_short_circuit = false)
    (htrav : traverse_entries db ET key fuel = some (top :: rest))
    (hT : db.getTable top.table = some T)
    (hTemb : T.embedded = false)
    (hTc : beginsWithClass T.name = true)
    (hkeys : ET.key ≠ T.key)
    (htopcol : T.getColumn top.field = some topcol)
    (htopobj : T.get_object top.obj = some topobj)
    (hpk : PKOk T topobj)
    (hrest : ∀ p ∈ rest, ∃ et c, db.getTable p.table = some et ∧
      et.embedded = true ∧ et.getColumn p.field = some c)
    (hleaf : ET.getColumn col = some leafcol)
    (hvu : isUnresolvedLink v = false)
    (hpay : PayloadOk db ET col v) :
    ∃ s' instr pay, set db s ET col key v variant fuel = .ok s' () ∧
      s'.instrs = s.instrs ++ [.update instr pay (variant = .instr_SetDefault) 0] ∧
      s'.encoder.decode instr.table = some (table_name_to_class_name T.name) ∧
      RowPK s'.encoder T topobj instr.object ∧
      decodePath s'.encoder (.field instr.field :: instr.path) =
        some (.field topcol.name ::
          ((if topcol.isList then [.index top.index] else []) ++
           rest.flatMap (entryNames db) ++ [.field leafcol.name])) := by
  unfold set
  rw [if_neg (by simp [hvu])]
  cases hst : select_table s ET with
  | mk s1 sel =>
    have hsel : sel = true := by
      have h2 := select_table_true s ET hEc hs
      rw [hst] at h2; exact h2
    subst hsel
    have hinstr : s1.instrs = s.instrs := by
      have h2 := select_table_instrs s ET; rw [hst] at h2; exact h2
    have hshort : s1.m_short_circuit = false := by
      have h2 := select_table_short s ET; rw [hst] at h2; exact h2.trans hs
    have hext1 : StrExt s.encoder s1.encoder := by
      have h2 := select_table_strExt s ET; rw [hst] at h2; exact h2
    have hlast1 : s1.m_last_table = some ET.key :=
      select_table_sets_last s ET s1 hst
    have hdiffT : s1.m_last_table ≠ some T.key := by
      rw [hlast1]
      intro hcontra
      exact hkeys (Option.some.inj hcontra)
    simp only [hst, if_true]
    obtain ⟨s2, instr, hpope, q1, q2, q3, q4, qtab, qrow, qpath⟩ :=
      populate_embedded db s1 ET key col fuel top rest T topcol topobj leafcol
        hembE htrav hT hTemb hTc hshort hdiffT htopcol htopobj hpk hrest hleaf
    rw [hpope]
    simp only [ROut.bindR]
    obtain ⟨s3, pay, hpaye, r1, r2, r3, r4⟩ :=
      as_payload_ok db s2 ET col v q3 hpay
    rw [hpaye]
    simp only [ROut.bindR]
    refine ⟨_, instr, pay, rfl, ?_, ?_, ?_, ?_⟩
    · simp [SyncState.emit, r1, q1, hinstr]
    · exact decode_mono r2 qtab
    · exact RowPK_mono r2 qrow
    · exact decodePath_mono r2 qpath

/-- C1 witness: the spec's concrete example — field `x` of the embedded
object at list index 3 of `items` of the top object with identity
`Int64(1)` encodes as table `Top`, object `Int64(1)`, path
`[items, 3, x]`. -/
theorem embedded_field_path_encoding_witness :
    ∃ s' instr pay,
      set db0 initSt tEmb 20 ⟨2, false⟩ (.int 5) .instr_Set 8 = .ok s' () ∧
      s'.instrs = initSt.instrs ++
        [.update instr pay ((SetVariant.instr_Set) = .instr_SetDefault) 0] ∧
      s'.encoder.decode instr.table = some (table_name_to_class_name tTop.name) ∧
      RowPK s'.encoder tTop
        { key := ⟨1, false⟩, fields := [(10, .int 1)], globalKey := 101 }
        instr.object ∧
      decodePath s'.encoder (.field instr.field :: instr.path) =
        some (.field "items" ::
          ((if true then [.index 3] else []) ++
           ([] : List ParentLink).flatMap (entryNames db0) ++ [.field "x"])) :=
  embedded_field_path_encoding db0 initSt tEmb 20 ⟨2, false⟩ (.int 5)
    .instr_Set 8 ⟨1, ⟨1, false⟩, 11, 3⟩ [] tTop
    ⟨11, "items", .type_LinkList, false, true, false, .type_Int, some 2⟩
    { key := ⟨1, false⟩, fields := [(10, .int 1)], globalKey := 101 }
    ⟨20, "x", .type_Int, false, false, false, .type_Int, none⟩
    rfl rfl rfl rfl rfl rfl rfl (by decide) rfl rfl
    ⟨⟨10, "_id", .type_Int, false, false, false, .type_Int, none⟩, rfl,
      Or.inr (Or.inl ⟨⟨1, rfl⟩, rfl⟩)⟩
    (by intro p hp; cases hp) rfl rfl trivial

end RealmSync

namespace RealmSync

theorem isLinkish_not_unresolved {v : Mixed} (h : isLinkish v = false) :
    isUnresolvedLink v = false := by
  cases v <;> first
    | rfl
    | (exfalso; simp [isLinkish] at h)

/-- Exact form of `as_payload` on non-link values. -/
theorem payload_eval (db : Database) (s : SyncState) (t : Table) (ck : Nat)
    (v : Mixed) (h : isLinkish v = false) :
    as_payload db s t ck v =
      .ok { s with encoder := (payload_of s.encoder v).1 }
        (payload_of s.encoder v).2 := by
  cases v <;> first
    | rfl
    | (exfalso; simp [isLinkish] at h)

theorem payload_of_strings (e : Encoder) (v : Mixed) :
    (payload_of e v).1.strings = e.strings := by
  cases v <;> rfl

theorem rowPK_of_strExt (e : Encoder) (t : Table) (o : ObjRec) :
    StrExt e (rowPK_of e t o).1 := by
  unfold rowPK_of
  cases hpkc : t.pkCol with
  | none => exact strExt_refl _
  | some pkc =>
      by_cases hn : (o.getField pkc).is_null = true
      · simp only [if_pos hn]
        exact strExt_refl _
      · simp only [if_neg hn]
        cases o.getField pkc <;> first
          | exact strExt_refl _
          | exact intern_strExt _ _

/-- Re-resolving a row's identity on a grown interning table returns the
same identity without touching the table. -/
theorem rowPK_of_stable {e e' : Encoder} {t : Table} {o : ObjRec}
    (hx : StrExt (rowPK_of e t o).1 e') :
    rowPK_of e' t o = (e', (rowPK_of e t o).2) := by
  unfold rowPK_of at hx ⊢
  cases hpkc : t.pkCol with
  | none => rfl
  | some pkc =>
      simp only [hpkc] at hx ⊢
      by_cases hn : (o.getField pkc).is_null = true
      · simp only [if_pos hn]
      · simp only [if_neg hn] at hx ⊢
        cases hfl : o.getField pkc with
        | str w =>
            rw [hfl] at hx
            simp only [intern_stable hx]
        | null => rfl
        | int w => rfl
        | bool w => rfl
        | float w => rfl
        | double w => rfl
        | binary w => rfl
        | timestamp w => rfl
        | decimal w => rfl
        | objectId w => rfl
        | link w => rfl
        | typedLink tk w => rfl

/-- Exact form of `primary_key_for_object` on the already-selected table. -/
theorem pk_cached_eval (s : SyncState) (t : Table) (key : ObjKey) (o : ObjRec)
    (hs : s.m_short_circuit = false)
    (hlast : s.m_last_table = some t.key)
    (ho : t.get_object key = some o) (hpk : PKOk t o) :
    primary_key_for_object s t key =
      .ok { s with
              encoder := (rowPK_of s.encoder t o).1
              resolves := s.resolves + 1 }
        (rowPK_of s.encoder t o).2 := by
  unfold primary_key_for_object
  simp only [select_table_cached { s with resolves := s.resolves + 1 } t hs hlast,
    Bool.not_true, Bool.false_eq_true, if_false]
  unfold rowPK_of
  cases hpkc : t.pkCol with
  | none => simp only [ho]
  | some pkc =>
      unfold PKOk at hpk
      rw [hpkc] at hpk
      obtain ⟨col, hcol, hval⟩ := hpk
      simp only [hcol, ho]
      rcases hval with hnull | ⟨⟨v, hv⟩, hd⟩ | ⟨⟨v, hv⟩, hd⟩ | ⟨⟨v, hv⟩, hd⟩
      · simp [hnull]
      · simp [hv, hd, Mixed.is_null]
      · simp [hv, hd, Mixed.is_null]
      · simp [hv, hd, Mixed.is_null]

end RealmSync

namespace RealmSync

/-- Exact form of `populate_top` when table, object and field are all
cached: no interning, no resolving, headers from the cache. -/
theorem populate_top_cached_eval (s : SyncState) (t : Table) (key : ObjKey)
    (field : Nat) (instr0 : PathInstr)
    (hs : s.m_short_circuit = false)
    (hlast : s.m_last_table = some t.key)
    (hob : s.m_last_object = some key)
    (hf : s.m_last_field = some field) :
    populate_top s t key field instr0 =
      .ok s { instr0 with
                table := s.m_last_class_name.getD 0
                object := s.m_last_primary_key.getD .null
                field := s.m_last_field_name.getD 0 } := by
  unfold populate_top
  rw [select_table_cached s t hs hlast]
  simp only [Bool.not_true, Bool.false_eq_true, if_false]
  rw [if_pos hob]
  simp only [ROut.bindR]
  rw [if_pos hf]

/-- Exact form of `populate_top` on the already-selected table with empty
object and field caches: the identity is resolved, the field name interned,
and both are written to the cache. -/
theorem populate_top_selected_eval (s : SyncState) (t : Table) (key : ObjKey)
    (field : Nat) (instr0 : PathInstr) (o : ObjRec) (fcol : Column)
    (hs : s.m_short_circuit = false)
    (hlast : s.m_last_table = some t.key)
    (hob : s.m_last_object = none)
    (hf : s.m_last_field = none)
    (ho : t.get_object key = some o) (hpk : PKOk t o)
    (hcol : t.getColumn field = some fcol) :
    populate_top s t key field instr0 =
      .ok { s with
              encoder := ((rowPK_of s.encoder t o).1.intern fcol.name).1
              m_last_object := some key
              m_last_primary_key := some (rowPK_of s.encoder t o).2
              m_last_field := some field
              m_last_field_name := some ((rowPK_of s.encoder t o).1.intern fcol.name).2
              resolves := s.resolves + 1 }
        { instr0 with
            table := s.m_last_class_name.getD 0
            object := (rowPK_of s.encoder t o).2
            field := ((rowPK_of s.encoder t o).1.intern fcol.name).2 } := by
  unfold populate_top
  rw [select_table_cached s t hs hlast]
  simp only [Bool.not_true, Bool.false_eq_true, if_false]
  rw [if_neg (by simp [hob])]
  rw [pk_cached_eval s t key o hs hlast ho hpk]
  simp only [ROut.bindR]
  rw [if_neg (by simp [hf])]
  simp only [hcol]

/-- Exact form of the cache-free `populate_top_nocache` on the
already-selected table: always resolves and interns, never touches the
object/field cache. -/
theorem populate_top_nocache_eval (s : SyncState) (t : Table) (key : ObjKey)
    (field : Nat) (instr0 : PathInstr) (o : ObjRec) (fcol : Column)
    (hs : s.m_short_circuit = false)
    (hlast : s.m_last_table = some t.key)
    (ho : t.get_object key = some o) (hpk : PKOk t o)
    (hcol : t.getColumn field = some fcol) :
    populate_top_nocache s t key field instr0 =
      .ok { s with
              encoder := ((rowPK_of s.encoder t o).1.intern fcol.name).1
              resolves := s.resolves + 1 }
        { instr0 with
            table := s.m_last_class_name.getD 0
            object := (rowPK_of s.encoder t o).2
            field := ((rowPK_of s.encoder t o).1.intern fcol.name).2 } := by
  unfold populate_top_nocache
  rw [select_table_cached s t hs hlast]
  simp only [Bool.not_true, Bool.false_eq_true, if_false]
  rw [pk_cached_eval s t key o hs hlast ho hpk]
  simp only [ROut.bindR]
  simp only [hcol]

end RealmSync

namespace RealmSync

/-- C8: two consecutive field-set calls on the same (table, object, field)
with non-link scalar values resolve the object's identity through the
Identity Resolver exactly once — the second call reuses the cached identity
and interned field name, emitting an instruction with the same table,
object and field headers — and the cache-free reference emitter
(`set_nocache`) produces exactly the same instruction list and interning
state, so the caching is transparent to the changeset. -/
theorem consecutive_set_caches_identity (db : Database) (s : SyncState)
    (t : Table) (col : Nat) (key : ObjKey) (v1 v2 : Mixed)
    (variant1 variant2 : SetVariant) (fuel : Nat) (o : ObjRec) (fcol : Column)
    (hc : beginsWithClass t.name = true)
    (hs : s.m_short_circuit = false)
    (hemb : t.embedded = false)
    (hdiff : s.m_last_table ≠ some t.key)
    (ho : t.get_object key = some o)
    (hpk : PKOk t o)
    (hcol : t.getColumn col = some fcol)
    (hv1 : isLinkish v1 = false) (hv2 : isLinkish v2 = false) :
    ∃ s1 s2 i1 i2 p1 p2,
      set db s t col key v1 variant1 fuel = .ok s1 () ∧
      set db s1 t col key v2 variant2 fuel = .ok s2 () ∧
      s1.resolves = s.resolves + 1 ∧
      s2.resolves = s1.resolves ∧
      s1.instrs = s.instrs ++ [.update i1 p1 (variant1 = .instr_SetDefault) 0] ∧
      s2.instrs = s1.instrs ++ [.update i2 p2 (variant2 = .instr_SetDefault) 0] ∧
      i2.table = i1.table ∧ i2.object = i1.object ∧ i2.field = i1.field ∧
      ∃ s1' s2',
        set_nocache db s t col key v1 variant1 = .ok s1' () ∧
        set_nocache db s1' t col key v2 variant2 = .ok s2' () ∧
        s2'.instrs = s2.instrs ∧ s2'.encoder = s2.encoder := by
  have hfr := select_table_fresh s t hc hs hdiff
  set E1 : Encoder := (s.encoder.intern (table_name_to_class_name t.name)).1 with hE1
  set cn : Nat := (s.encoder.intern (table_name_to_class_name t.name)).2 with hcn2
  set sSel : SyncState :=
    { s with
        encoder := E1
        m_last_class_name := some cn
        m_last_table := some t.key
        m_last_field := none
        m_last_object := none
        m_last_primary_key := none } with hsSel
  set PR : Encoder × PrimaryKey := rowPK_of E1 t o with hPR
  set FR : Encoder × Nat := PR.1.intern fcol.name with hFR
  set PV1 : Encoder × Payload := payload_of FR.1 v1 with hPV1
  set PV2 : Encoder × Payload := payload_of PV1.1 v2 with hPV2
  set i1 : PathInstr := ⟨cn, PR.2, FR.2, []⟩ with hi1
  set S1 : SyncState :=
    { s with
        encoder := PV1.1
        instrs := s.instrs ++ [.update i1 PV1.2 (variant1 = .instr_SetDefault) 0]
        m_last_table := some t.key
        m_last_object := some key
        m_last_field := some col
        m_last_class_name := some cn
        m_last_primary_key := some PR.2
        m_last_field_name := some FR.2
        resolves := s.resolves + 1 } with hS1
  set S2 : SyncState :=
    { S1 with
        encoder := PV2.1
        instrs := S1.instrs ++ [.update i1 PV2.2 (variant2 = .instr_SetDefault) 0] } with hS2
  set S1' : SyncState :=
    { s with
        encoder := PV1.1
        instrs := s.instrs ++ [.update i1 PV1.2 (variant1 = .instr_SetDefault) 0]
        m_last_table := some t.key
        m_last_class_name := some cn
        m_last_field := none
        m_last_object := none
        m_last_primary_key := none
        resolves := s.resolves + 1 } with hS1n
  set S2' : SyncState :=
    { S1' with
        encoder := PV2.1
        instrs := S1'.instrs ++ [.update i1 PV2.2 (variant2 = .instr_SetDefault) 0]
        resolves := S1'.resolves + 1 } with hS2n
  have hext_fr : StrExt FR.1 PV1.1 := by
    refine ⟨[], ?_⟩
    rw [hPV1, payload_of_strings]
    simp
  have hext_pr : StrExt PR.1 PV1.1 :=
    strExt_trans (intern_strExt PR.1 fcol.name) hext_fr
  have hstab : rowPK_of PV1.1 t o = (PV1.1, PR.2) := by
    rw [hPR]
    exact rowPK_of_stable (by rw [← hPR]; exact hext_pr)
  have hstab2 : PV1.1.intern fcol.name = (PV1.1, FR.2) := by
    rw [hFR]
    exact intern_stable (by rw [← hFR]; exact hext_fr)
  have hrun1 : set db s t col key v1 variant1 fuel = .ok S1 () := by
    unfold set
    rw [if_neg (by simp [isLinkish_not_unresolved hv1])]
    simp only [hfr, if_true]
    rw [populate_path_instr_top db sSel t key col fuel hemb]
    rw [populate_top_selected_eval sSel t key col {} o fcol hs rfl rfl rfl ho hpk hcol]
    simp only [ROut.bindR]
    rw [payload_eval db _ t col v1 hv1]
    simp only [ROut.bindR]
    rfl
  have hrun2 : set db S1 t col key v2 variant2 fuel = .ok S2 () := by
    unfold set
    rw [if_neg (by simp [isLinkish_not_unresolved hv2])]
    simp only [select_table_cached S1 t hs rfl, if_true]
    rw [populate_path_instr_top db S1 t key col fuel hemb]
    rw [populate_top_cached_eval S1 t key col {} hs rfl rfl rfl]
    simp only [ROut.bindR]
    rw [payload_eval db S1 t col v2 hv2]
    simp only [ROut.bindR]
    rfl
  have hrun1n : set_nocache db s t col key v1 variant1 = .ok S1' () := by
    unfold set_nocache
    rw [if_neg (by simp [isLinkish_not_unresolved hv1])]
    simp only [hfr, if_true]
    rw [populate_top_nocache_eval sSel t key col {} o fcol hs rfl ho hpk hcol]
    simp only [ROut.bindR]
    rw [payload_eval db _ t col v1 hv1]
    simp only [ROut.bindR]
    rfl
  have hrun2n : set_nocache db S1' t col key v2 variant2 = .ok S2' () := by
    unfold set_nocache
    rw [if_neg (by simp [isLinkish_not_unresolved hv2])]
    simp only [select_table_cached S1' t hs rfl, if_true]
    rw [populate_top_nocache_eval S1' t key col {} o fcol hs rfl ho hpk hcol]
    simp only [show rowPK_of S1'.encoder t o = (PV1.1, PR.2) from hstab,
      show PV1.1.intern fcol.name = (PV1.1, FR.2) from hstab2]
    simp only [ROut.bindR]
    rw [payload_eval db _ t col v2 hv2]
    simp only [ROut.bindR]
    rfl
  exact ⟨S1, S2, i1, i1, PV1.2, PV2.2, hrun1, hrun2, rfl, rfl, rfl, rfl,
    rfl, rfl, rfl, S1', S2', hrun1n, hrun2n, rfl, rfl⟩

/-- C8 witness: two consecutive sets of `class_Top._id`-keyed object's
scalar field at a concrete state. -/
theorem consecutive_set_caches_identity_witness :
    ∃ s1 s2 i1 i2 p1 p2,
      set db0 initSt tTop 11 ⟨1, false⟩ (.int 7) .instr_Set 8 = .ok s1 () ∧
      set db0 s1 tTop 11 ⟨1, false⟩ (.str "b") .instr_Set 8 = .ok s2 () ∧
      s1.resolves = initSt.resolves + 1 ∧
      s2.resolves = s1.resolves ∧
      s1.instrs = initSt.instrs ++
        [.update i1 p1 ((SetVariant.instr_Set) = .instr_SetDefault) 0] ∧
      s2.instrs = s1.instrs ++
        [.update i2 p2 ((SetVariant.instr_Set) = .instr_SetDefault) 0] ∧
      i2.table = i1.table ∧ i2.object = i1.object ∧ i2.field = i1.field ∧
      ∃ s1' s2',
        set_nocache db0 initSt tTop 11 ⟨1, false⟩ (.int 7) .instr_Set = .ok s1' () ∧
        set_nocache db0 s1' tTop 11 ⟨1, false⟩ (.str "b") .instr_Set = .ok s2' () ∧
        s2'.instrs = s2.instrs ∧ s2'.encoder = s2.encoder :=
  consecutive_set_caches_identity db0 initSt tTop 11 ⟨1, false⟩ (.int 7)
    (.str "b") .instr_Set .instr_Set 8
    { key := ⟨1, false⟩, fields := [(10, .int 1)], globalKey := 101 }
    ⟨11, "items", .type_LinkList, false, true, false, .type_Int, some 2⟩
    rfl rfl rfl (by decide) rfl
    ⟨⟨10, "_id", .type_Int, false, false, false, .type_Int, none⟩, rfl,
      Or.inr (Or.inl ⟨⟨1, rfl⟩, rfl⟩)⟩
    rfl rfl rfl

end RealmSync
